import Mathlib

/-!
Verification of the AI-Trader position ledger and trade-execution engine.

The Python source is shallowly embedded as follows:
* Python `dict[str, float]` (holdings, OHLC records) becomes an insertion
  ordered association list `List (String × ℚ)`; `d[k] = v` updates the first
  binding of `k` in place or appends a fresh binding at the end, exactly as a
  Python dict does.  Prices and amounts are modelled as exact rationals.
* A line of `position.jsonl` becomes a `LedgerLine`; the stock/crypto tools
  write the `{date, id, this_action, positions}` shape, the futures tool
  writes the `{date, action_id, action, symbol, contracts, price, total_cost,
  positions}` shape, and the two constructors mirror this.
* A Python function that can raise is embedded with an explicit exceptional
  outcome (`TradeOutcome.exn`, `Except.error`).
* Calendar dates are modelled as day numbers (days since 1970-01-01);
  `datetime.weekday` becomes `pyWeekday d = (d + 3) % 7` (day 0, 1970-01-01,
  was a Thursday, so Monday ↦ 0 … Sunday ↦ 6 as in Python).
* `tools/price_tools.py` (`get_latest_position`, `get_open_prices`) is not
  part of the given sources; it is modelled from the spec where noted.
-/

namespace AITrader

/-! ### Python dict model -/

/-- Holdings and OHLC records: a Python `dict[str, float]` as an insertion
ordered association list of string keys and rational values. -/
abbrev Dict := List (String × ℚ)

/-- Python `d.get(k)` / `d[k]` lookup semantics: value of the first binding. -/
def dictGet (d : Dict) (k : String) : Option ℚ :=
  match d with
  | [] => none
  | (k0, v0) :: rest => if k0 = k then some v0 else dictGet rest k

/-- Python `d.get(k, default)`. -/
def dictGetD (d : Dict) (k : String) (dflt : ℚ) : ℚ :=
  (dictGet d k).getD dflt

/-- Python `k in d`. -/
def dictHasKey (d : Dict) (k : String) : Bool :=
  (dictGet d k).isSome

/-- Python `d[k] = v`: overwrite the existing binding in place, otherwise
append a new binding at the end (dict insertion order). -/
def dictSet (d : Dict) (k : String) (v : ℚ) : Dict :=
  match d with
  | [] => [(k, v)]
  | (k0, v0) :: rest => if k0 = k then (k0, v) :: rest else (k0, v0) :: dictSet rest k v

/-! ### Ledger lines (`position.jsonl`) -/

/-- JSON object written under the `this_action` key by the stock and crypto
trade tools: `{"action": ..., "symbol": ..., "amount": ...}`. -/
structure ActionRec where
  action : String
  symbol : String
  amount : ℚ
deriving DecidableEq, Repr

/-- One line of `position.jsonl`.  `pos` is the shape written by
`register_agent`, `buy`, `sell`, `buy_crypto` and `sell_crypto`
(`{date, id, this_action?, positions}`); `fut` is the distinct shape written
by `buy_futures` / `sell_futures`
(`{date, action_id, action, symbol, contracts, price, amount, positions}`,
where `amount` stands for the `total_cost` / `proceeds` field). -/
inductive LedgerLine where
  | pos (date : String) (id : ℕ) (thisAction : Option ActionRec) (positions : Dict)
  | fut (date : String) (actionId : ℕ) (action : String) (symbol : String)
      (contracts : ℚ) (price : ℚ) (amount : ℚ) (positions : Dict)
deriving DecidableEq, Repr

/-- Action id recorded on a line (the `id` field for stock/crypto lines, the
`action_id` field for futures lines). -/
def LedgerLine.aid : LedgerLine → ℕ
  | .pos _ i _ _ => i
  | .fut _ i _ _ _ _ _ _ => i

/-- Holdings snapshot recorded on a line (the `positions` field). -/
def LedgerLine.holdings : LedgerLine → Dict
  | .pos _ _ _ p => p
  | .fut _ _ _ _ _ _ _ p => p

/-- Comparison step of the latest-position scan: keep the running best
snapshot unless the next entry's action id is at least as large. -/
def lpStep (acc : Dict × ℕ) (e : LedgerLine) : Dict × ℕ :=
  if acc.2 ≤ e.aid then (e.holdings, e.aid) else acc

/-- Modelled from the spec: `tools/price_tools.py` is absent from the given
sources; per §4.2 `get_latest_position` returns the holdings and action id of
the most recently appended snapshot whose action id is the maximum among all
entries of the ledger.  Later entries win ties (`lpStep`), matching "most
recently appended ... whose actionId is the maximum"; an empty ledger never
arises because registration precedes every trade. -/
def get_latest_position (ledger : List LedgerLine) : Dict × ℕ :=
  match ledger with
  | [] => ([], 0)
  | first :: rest => rest.foldl lpStep (first.holdings, first.aid)

/-! ### Registration (`base_agent.register_agent`) -/

/-- Initial holdings built by `register_agent`:
`{symbol: 0 for symbol in self.stock_symbols}` then `["CASH"] = initial_cash`. -/
def initPositions (symbols : List String) (initialCash : ℚ) : Dict :=
  dictSet (symbols.map fun s => (s, 0)) "CASH" initialCash

/-- Genesis line written by `register_agent`: `{"date": init_date, "id": 0,
"positions": init_position}`, with no `this_action` field. -/
def genesisLine (symbols : List String) (initialCash : ℚ) (initDate : String) : LedgerLine :=
  .pos initDate 0 none (initPositions symbols initialCash)

/-- The ledger file state: `none` when `position.jsonl` does not exist,
`some lines` when it holds the given lines. -/
abbrev FileState := Option (List LedgerLine)

/-- Embedding of `BaseAgent.register_agent`: if the position file already
exists the call returns immediately leaving it untouched; otherwise it creates
the file with the single genesis line. -/
def register_agent (symbols : List String) (initialCash : ℚ) (initDate : String)
    (fs : FileState) : FileState :=
  match fs with
  | some lines => some lines
  | none => some [genesisLine symbols initialCash initDate]

/-! ### Trading-date scheduler (`base_agent.get_trading_dates`) -/

/-- Asset classes distinguished by the scheduler. -/
inductive AssetType where
  | stock
  | crypto
  | futures
deriving DecidableEq, Repr

/-- Python `datetime.weekday()` for a day number (days since 1970-01-01,
which was a Thursday): Monday ↦ 0 … Sunday ↦ 6. -/
def pyWeekday (d : ℕ) : ℕ :=
  (d + 3) % 7

/-- The filter of the scheduler loop: crypto and futures trade every day,
stocks only when `weekday() < 5` (Monday–Friday). -/
def isTradingDay (a : AssetType) (d : ℕ) : Bool :=
  a = AssetType.crypto || a = AssetType.futures || pyWeekday d < 5

/-- The `while current_date <= end_date_obj` loop of `get_trading_dates` with
its iteration count (`endD + 1 - cur` days) made explicit as structural fuel:
each visited day that passes the asset-type/weekday filter is appended. -/
def collectGo (a : AssetType) : ℕ → ℕ → List ℕ
  | 0, _ => []
  | fuel + 1, cur => (if isTradingDay a cur then [cur] else []) ++ collectGo a fuel (cur + 1)

/-- The scheduler loop walking `cur, cur+1, …, endD`. -/
def collectDates (a : AssetType) (cur endD : ℕ) : List ℕ :=
  collectGo a (endD + 1 - cur) cur

/-- Embedding of `BaseAgent.get_trading_dates`.  `ledgerMaxDate` is the
maximum `date` field over the existing position file (`none` when the file
does not exist, in which case the code registers the agent and uses
`init_date`).  If `end_date <= max_date` the result is empty; otherwise the
loop walks from `max_date + 1` to `end_date` inclusive. -/
def get_trading_dates (a : AssetType) (ledgerMaxDate : Option ℕ)
    (initDate endDate : ℕ) : List ℕ :=
  let maxDate := ledgerMaxDate.getD initDate
  if endDate ≤ maxDate then []
  else collectDates a (maxDate + 1) endDate

/-! ### Crypto price oracle (`tools/crypto_tools.py`) -/

/-- The `SUPPORTED_CRYPTOS` constant. -/
def SUPPORTED_CRYPTOS : List String := ["BTC", "ETH"]

/-- Key of a crypto price series entry, `"YYYY-MM-DD HH:00:00"`, modelled
structurally as the date part and the hour part (this is the key shape the
data-fetch scripts produce; `get_crypto_price_on_date` splits a key on the
blank and the colon, so `dt_str.startswith(target_date)` coincides with
equality of the date part for well-formed `YYYY-MM-DD` dates). -/
structure CKey where
  date : String
  hour : ℕ
deriving DecidableEq, Repr

/-- One crypto price series: the JSON object mapping timestamp keys to OHLC
records (each record again a string-keyed dict). -/
abbrev CryptoSeries := List (CKey × Dict)

/-- The `hour is None` branch of `get_crypto_price_on_date`: scan all keys
starting with the target date, keep the greatest hour seen (`h > latest_hour`
keeps the first record among equal hours, and a real dict has no duplicate
keys), then return `record.get(price_type)` of that entry, or `None` when no
key matched. -/
def cryptoLatestHourScan (data : CryptoSeries) (targetDate : String) :
    Option (ℕ × Dict) :=
  data.foldl
    (fun acc e =>
      if e.1.date = targetDate then
        match acc with
        | none => some (e.1.hour, e.2)
        | some best => if best.1 < e.1.hour then some (e.1.hour, e.2) else acc
      else acc)
    none

/-- Embedding of `get_crypto_price_on_date(crypto_symbol, target_date,
price_type)` (with `hour=None`) applied to already-loaded data: pick the
latest hour of the date and return that record's `price_type` field, `None`
when the date has no entries.  The `load_crypto_price_data` unsupported-symbol
`ValueError` is handled at the call sites, which pass only loaded data here. -/
def get_crypto_price_on_date (data : CryptoSeries) (targetDate : String)
    (priceType : String) : Option ℚ :=
  match cryptoLatestHourScan data targetDate with
  | none => none
  | some best => dictGet best.2 priceType

/-! ### Futures price oracle (`tools/futures_tools.py`) -/

/-- The `SUPPORTED_FUTURES` constant. -/
def SUPPORTED_FUTURES : List String :=
  ["NQ1", "ES", "MES", "MNQ", "YM", "GC", "CL", "ZB", "ZS", "ZC", "ZW"]

/-- Key of a futures price series entry: either a date-only string
`"YYYY-MM-DD"` or a date-plus-time string `"YYYY-MM-DD HH:MM:SS"`, modelled
structurally as the date part plus, for the timed form, the second-of-day
`HH*3600 + MM*60 + SS`.  For well-formed `YYYY-MM-DD` dates,
`dt_str.startswith(target_date)` coincides with equality of the date part. -/
inductive FKey where
  | dateOnly (date : String)
  | dateTime (date : String) (secs : ℕ)
deriving DecidableEq, Repr

/-- Date part of a futures key. -/
def FKey.date : FKey → String
  | .dateOnly d => d
  | .dateTime d _ => d

/-- Second-of-day of the `datetime` a key parses to (a date-only key parses to
midnight via the `"%Y-%m-%d"` fallback of the first
`get_futures_price_on_date` definition). -/
def FKey.secs : FKey → ℕ
  | .dateOnly _ => 0
  | .dateTime _ s => s

/-- One futures price series: the JSON object mapping timestamp keys to OHLC
records. -/
abbrev FutSeries := List (FKey × Dict)

/-- The scan loop of the first (later shadowed) `get_futures_price_on_date`
definition: among keys starting with the target date keep the one with the
strictly greatest parsed datetime (both key forms parse, the date-only form
via the caught `ValueError` fallback; all matched keys share the date, so the
datetime order is the `FKey.secs` order). -/
def latestStep (targetDate : String) (acc : Option (FKey × Dict))
    (e : FKey × Dict) : Option (FKey × Dict) :=
  if e.1.date = targetDate then
    match acc with
    | none => some e
    | some best => if best.1.secs < e.1.secs then some e else acc
  else acc

/-- The whole latest-of-date scan as a left fold of `latestStep` starting from
`latest_dt = None`. -/
def futuresLatestScan (data : FutSeries) (targetDate : String) :
    Option (FKey × Dict) :=
  data.foldl (latestStep targetDate) none

/-- Embedding of the FIRST `get_futures_price_on_date` definition
(futures_tools.py lines 44–77), which is later shadowed by a second definition
of the same name: return the `price_type` field of the latest entry of the
date, or `None` when the date has no entries. -/
def get_futures_price_on_date_v1 (data : FutSeries) (targetDate : String)
    (priceType : String) : Option ℚ :=
  match futuresLatestScan data targetDate with
  | none => none
  | some best => dictGet best.2 priceType

/-- The closest-timestamp scan of `get_futures_price_at_time`: walk the keys
in stored order; a date-only key matching the date hits the uncaught
`strptime` `ValueError` (`Except.error`); a timed key updates the running
minimum only on a strictly smaller absolute difference, so the first of
several equidistant keys wins. -/
def futuresClosestScan (data : FutSeries) (targetDate : String)
    (targetSecs : ℕ) : Except String (Option (ℕ × Dict)) :=
  match data with
  | [] => .ok none
  | e :: rest =>
    if e.1.date = targetDate then
      match e.1 with
      | .dateOnly _ => .error "ValueError: unconverted data in strptime"
      | .dateTime _ s =>
        match futuresClosestScan rest targetDate targetSecs with
        | .error msg => .error msg
        | .ok none => .ok (some (((s : ℤ) - targetSecs).natAbs, e.2))
        | .ok (some best) =>
          if best.1 < ((s : ℤ) - targetSecs).natAbs then .ok (some best)
          else .ok (some (((s : ℤ) - targetSecs).natAbs, e.2))
    else futuresClosestScan rest targetDate targetSecs

/-- Embedding of `get_futures_price_at_time(futures_symbol, target_date,
target_time, price_type)` applied to loaded data, with the target time given
as its second-of-day (the code builds `f"{target_date} {target_time}:00"`, so
the target is always a whole minute): exact dict hit first, otherwise the
closest-timestamp fallback, which raises on a date-only key of that date. -/
def get_futures_price_at_time (data : FutSeries) (targetDate : String)
    (targetSecs : ℕ) (priceType : String) : Except String (Option ℚ) :=
  match data.find? (fun e => e.1 = .dateTime targetDate targetSecs) with
  | some e => .ok (dictGet e.2 priceType)
  | none =>
    match futuresClosestScan data targetDate targetSecs with
    | .error msg => .error msg
    | .ok none => .ok none
    | .ok (some best) => .ok (dictGet best.2 priceType)

/-- Second-of-day of the `"23:59"` target used by the effective
`get_futures_price_on_date`. -/
def secs2359 : ℕ := 23 * 3600 + 59 * 60

/-- Embedding of the SECOND, effective `get_futures_price_on_date` definition
(futures_tools.py lines 119–133), which shadows the first and delegates to
`get_futures_price_at_time(symbol, date, "23:59", price_type)`. -/
def get_futures_price_on_date (data : FutSeries) (targetDate : String)
    (priceType : String) : Except String (Option ℚ) :=
  get_futures_price_at_time data targetDate secs2359 priceType

/-! ### Trade executor (`agent_tools/tool_trade.py`, `tool_crypto_trade.py`,
`tool_futures_trade.py`) -/

/-- Kind of a business-rule rejection, distinguishing the error dictionaries
the trade tools return. -/
inductive ErrKind where
  | symbolNotFound
  | priceUnavailable
  | unsupportedFutures
  | insufficientCash
  | noPosition
  | insufficientShares
deriving DecidableEq, Repr

/-- A structured rejection dictionary: always carries the `error` kind, the
`symbol` and the `date`; the numeric context fields are present exactly when
the corresponding Python dict carries them (`required_cash`/`cash_available`
for insufficient cash, `have`/`want_to_sell` — `held_contracts` /
`requested_sell` for futures — for insufficient shares). -/
structure ErrDict where
  kind : ErrKind
  symbol : String
  date : String
  required_cash : Option ℚ
  cash_available : Option ℚ
  have_amount : Option ℚ
  want_to_sell : Option ℚ
deriving DecidableEq, Repr

/-- Outcome of one trade tool call: a returned holdings dict together with the
line appended to `position.jsonl`, a returned rejection dictionary, or an
uncaught Python exception. -/
inductive TradeOutcome where
  | success (newPositions : Dict) (appended : LedgerLine)
  | error (e : ErrDict)
  | exn (msg : String)
deriving DecidableEq, Repr

/-- Ambient session environment of the trade tools: the current date
(`TODAY_DATE`), the stock open-price lookup, and the loaded crypto and
futures price files (a missing file loads as the empty dict).
`openPrices` is modelled from the spec: `tools/price_tools.get_open_prices`
is absent from the given sources; per §4.1/§6 it resolves a symbol's opening
price for a date, and a missing symbol or date surfaces as the `KeyError` the
callers catch, i.e. as `none` here. -/
structure Env where
  today : String
  openPrices : String → String → Option ℚ
  cryptoFiles : String → CryptoSeries
  futFiles : String → FutSeries

/-- Embedding of `tool_trade.buy`: resolve the latest position, resolve the
open price (`KeyError` → symbol-not-found rejection), reject on insufficient
cash, otherwise copy the holdings, set `CASH`, then `new_position[symbol] +=
amount` — which raises `KeyError` when the symbol has no binding — and append
`{date, id: current_action_id + 1, this_action: {buy, symbol, amount},
positions}`. -/
def stockBuy (env : Env) (ledger : List LedgerLine) (symbol : String)
    (amount : ℚ) : TradeOutcome × List LedgerLine :=
  let st := get_latest_position ledger
  match env.openPrices env.today symbol with
  | none =>
    (.error ⟨.symbolNotFound, symbol, env.today, none, none, none, none⟩, ledger)
  | some price =>
    match dictGet st.1 "CASH" with
    | none => (.exn "KeyError: CASH", ledger)
    | some cash =>
      let cashLeft := cash - price * amount
      if cashLeft < 0 then
        (.error ⟨.insufficientCash, symbol, env.today,
          some (price * amount), some (dictGetD st.1 "CASH" 0), none, none⟩, ledger)
      else
        let np1 := dictSet st.1 "CASH" cashLeft
        match dictGet np1 symbol with
        | none => (.exn "KeyError: symbol", ledger)
        | some held =>
          let np := dictSet np1 symbol (held + amount)
          let line := LedgerLine.pos env.today (st.2 + 1)
            (some ⟨"buy", symbol, amount⟩) np
          (.success np line, ledger ++ [line])

/-- Embedding of `tool_trade.sell`: resolve price (`KeyError` →
symbol-not-found rejection), then the no-position and insufficient-shares
rejections, otherwise decrement the symbol, add `price * amount` to `CASH`
(via `.get("CASH", 0)`) and append with `id = current_action_id + 1`. -/
def stockSell (env : Env) (ledger : List LedgerLine) (symbol : String)
    (amount : ℚ) : TradeOutcome × List LedgerLine :=
  let st := get_latest_position ledger
  match env.openPrices env.today symbol with
  | none =>
    (.error ⟨.symbolNotFound, symbol, env.today, none, none, none, none⟩, ledger)
  | some price =>
    match dictGet st.1 symbol with
    | none =>
      (.error ⟨.noPosition, symbol, env.today, none, none, none, none⟩, ledger)
    | some held =>
      if held < amount then
        (.error ⟨.insufficientShares, symbol, env.today, none, none,
          some (dictGetD st.1 symbol 0), some amount⟩, ledger)
      else
        let np1 := dictSet st.1 symbol (held - amount)
        let np := dictSet np1 "CASH" (dictGetD np1 "CASH" 0 + price * amount)
        let line := LedgerLine.pos env.today (st.2 + 1)
          (some ⟨"sell", symbol, amount⟩) np
        (.success np line, ledger ++ [line])

/-- Embedding of `tool_crypto_trade.buy_crypto`.  The price resolution calls
`get_crypto_price_on_date`, whose `load_crypto_price_data` raises `ValueError`
for a symbol outside `SUPPORTED_CRYPTOS`; the caller catches only `KeyError`,
so the `ValueError` escapes as an uncaught exception.  A `None` price is
rejected; insufficient cash is rejected; otherwise the symbol entry is
created at 0 when absent (`new_position.get(crypto_symbol, 0) + amount`) and
the tool appends with `id = current_action_id + 1`. -/
def cryptoBuy (env : Env) (ledger : List LedgerLine) (symbol : String)
    (amount : ℚ) : TradeOutcome × List LedgerLine :=
  let st := get_latest_position ledger
  if symbol ∈ SUPPORTED_CRYPTOS then
    match get_crypto_price_on_date (env.cryptoFiles symbol) env.today "open" with
    | none =>
      (.error ⟨.priceUnavailable, symbol, env.today, none, none, none, none⟩, ledger)
    | some price =>
      match dictGet st.1 "CASH" with
      | none => (.exn "KeyError: CASH", ledger)
      | some cash =>
        let cashLeft := cash - price * amount
        if cashLeft < 0 then
          (.error ⟨.insufficientCash, symbol, env.today,
            some (price * amount), some (dictGetD st.1 "CASH" 0), none, none⟩, ledger)
        else
          let np1 := dictSet st.1 "CASH" cashLeft
          let np := dictSet np1 symbol (dictGetD np1 symbol 0 + amount)
          let line := LedgerLine.pos env.today (st.2 + 1)
            (some ⟨"buy_crypto", symbol, amount⟩) np
          (.success np line, ledger ++ [line])
  else (.exn "ValueError: Unsupported cryptocurrency", ledger)

/-- Embedding of `tool_crypto_trade.sell_crypto`: same `ValueError` escape for
unsupported symbols, `None`-price rejection, then the no-position and
insufficient-shares rejections, otherwise decrement the symbol, add the
proceeds to `CASH` and append with `id = current_action_id + 1`. -/
def cryptoSell (env : Env) (ledger : List LedgerLine) (symbol : String)
    (amount : ℚ) : TradeOutcome × List LedgerLine :=
  let st := get_latest_position ledger
  if symbol ∈ SUPPORTED_CRYPTOS then
    match get_crypto_price_on_date (env.cryptoFiles symbol) env.today "open" with
    | none =>
      (.error ⟨.priceUnavailable, symbol, env.today, none, none, none, none⟩, ledger)
    | some price =>
      match dictGet st.1 symbol with
      | none =>
        (.error ⟨.noPosition, symbol, env.today, none, none, none, none⟩, ledger)
      | some held =>
        if held < amount then
          (.error ⟨.insufficientShares, symbol, env.today, none, none,
            some (dictGetD st.1 symbol 0), some amount⟩, ledger)
        else
          let np1 := dictSet st.1 symbol (held - amount)
          let np := dictSet np1 "CASH" (dictGetD np1 "CASH" 0 + price * amount)
          let line := LedgerLine.pos env.today (st.2 + 1)
            (some ⟨"sell_crypto", symbol, amount⟩) np
          (.success np line, ledger ++ [line])
  else (.exn "ValueError: Unsupported cryptocurrency", ledger)

/-- The fixed futures contract multiplier. -/
def contract_multiplier : ℚ := 20

/-- Embedding of `tool_futures_trade.buy_futures`: an unsupported symbol is a
returned rejection (checked before anything else); the price comes from the
effective `get_futures_price_on_date`, whose `ValueError` on a date-only key
escapes (only `KeyError` is caught); `None` price is rejected; the cost is
`price * 20 * contracts`; on success the symbol entry is created at 0 when
absent and the appended record carries `action_id = current_action_id`
— NOT incremented — in the futures record shape. -/
def futuresBuy (env : Env) (ledger : List LedgerLine) (symbol : String)
    (contracts : ℚ) : TradeOutcome × List LedgerLine :=
  if symbol ∈ SUPPORTED_FUTURES then
    let st := get_latest_position ledger
    match get_futures_price_on_date (env.futFiles symbol) env.today "open" with
    | .error msg => (.exn msg, ledger)
    | .ok none =>
      (.error ⟨.priceUnavailable, symbol, env.today, none, none, none, none⟩, ledger)
    | .ok (some price) =>
      let totalCost := price * contract_multiplier * contracts
      match dictGet st.1 "CASH" with
      | none => (.exn "KeyError: CASH", ledger)
      | some cash =>
        let cashLeft := cash - totalCost
        if cashLeft < 0 then
          (.error ⟨.insufficientCash, symbol, env.today,
            some totalCost, some (dictGetD st.1 "CASH" 0), none, none⟩, ledger)
        else
          let np1 := dictSet st.1 symbol (dictGetD st.1 symbol 0 + contracts)
          let np := dictSet np1 "CASH" cashLeft
          let line := LedgerLine.fut env.today st.2 "buy_futures" symbol
            contracts price totalCost np
          (.success np line, ledger ++ [line])
  else
    (.error ⟨.unsupportedFutures, symbol, env.today, none, none, none, none⟩, ledger)

/-- Embedding of `tool_futures_trade.sell_futures`: unsupported symbol is a
returned rejection; `None` price is rejected; the held amount is read with
`.get(futures_symbol, 0)` — there is no separate no-position branch, an
absent symbol is treated as holding 0 contracts — and only
`current_contracts < contracts` is rejected; on success the proceeds are
`price * 20 * contracts`, `CASH` is read by direct indexing (raising when
absent) and the appended record carries `action_id = current_action_id`,
NOT incremented. -/
def futuresSell (env : Env) (ledger : List LedgerLine) (symbol : String)
    (contracts : ℚ) : TradeOutcome × List LedgerLine :=
  if symbol ∈ SUPPORTED_FUTURES then
    let st := get_latest_position ledger
    match get_futures_price_on_date (env.futFiles symbol) env.today "open" with
    | .error msg => (.exn msg, ledger)
    | .ok none =>
      (.error ⟨.priceUnavailable, symbol, env.today, none, none, none, none⟩, ledger)
    | .ok (some price) =>
      let currentContracts := dictGetD st.1 symbol 0
      if currentContracts < contracts then
        (.error ⟨.insufficientShares, symbol, env.today, none, none,
          some currentContracts, some contracts⟩, ledger)
      else
        let proceeds := price * contract_multiplier * contracts
        let np1 := dictSet st.1 symbol (currentContracts - contracts)
        match dictGet np1 "CASH" with
        | none => (.exn "KeyError: CASH", ledger)
        | some cash =>
          let np := dictSet np1 "CASH" (cash + proceeds)
          let line := LedgerLine.fut env.today st.2 "sell_futures" symbol
            contracts price proceeds np
          (.success np line, ledger ++ [line])
  else
    (.error ⟨.unsupportedFutures, symbol, env.today, none, none, none, none⟩, ledger)

/-! ### Operation sequences -/

/-- One tool call of the stock or crypto executors (the entry points that
write the `{date, id, this_action, positions}` record shape). -/
inductive Op where
  | sBuy (symbol : String) (amount : ℚ)
  | sSell (symbol : String) (amount : ℚ)
  | cBuy (symbol : String) (amount : ℚ)
  | cSell (symbol : String) (amount : ℚ)
deriving DecidableEq, Repr

/-- Requested amount of an operation. -/
def Op.amount : Op → ℚ
  | .sBuy _ a => a
  | .sSell _ a => a
  | .cBuy _ a => a
  | .cSell _ a => a

/-- Apply one operation to the ledger. -/
def stepOp (env : Env) (ledger : List LedgerLine) : Op → TradeOutcome × List LedgerLine
  | .sBuy s a => stockBuy env ledger s a
  | .sSell s a => stockSell env ledger s a
  | .cBuy s a => cryptoBuy env ledger s a
  | .cSell s a => cryptoSell env ledger s a

/-- Run a sequence of operations, threading the ledger file. -/
def runOps (env : Env) (ledger : List LedgerLine) (ops : List Op) : List LedgerLine :=
  ops.foldl (fun l op => (stepOp env l op).2) ledger

/-! ## Lemmas about the dict model -/

@[simp]
theorem dictGet_nil (k : String) : dictGet [] k = none := rfl

theorem dictGet_dictSet_self (d : Dict) (k : String) (v : ℚ) :
    dictGet (dictSet d k v) k = some v := by
  induction d with
  | nil => simp [dictSet, dictGet]
  | cons hd tl ih =>
    obtain ⟨k0, v0⟩ := hd
    by_cases h : k0 = k
    · simp [dictSet, dictGet, h]
    · simp [dictSet, dictGet, h, ih]

theorem dictGet_dictSet_ne (d : Dict) (k j : String) (v : ℚ) (hkj : k ≠ j) :
    dictGet (dictSet d k v) j = dictGet d j := by
  induction d with
  | nil => simp [dictSet, dictGet, hkj]
  | cons hd tl ih =>
    obtain ⟨k0, v0⟩ := hd
    by_cases h : k0 = k
    · subst h
      simp [dictSet, dictGet, hkj]
    · simp [dictSet, dictGet, h, ih]

/-! ## Scheduler lemmas -/

theorem collectGo_eq_filter (a : AssetType) :
    ∀ (fuel cur : ℕ),
      collectGo a fuel cur = (List.range' cur fuel).filter (fun d => isTradingDay a d)
  | 0, _ => rfl
  | fuel + 1, cur => by
    rw [List.range'_succ, collectGo, collectGo_eq_filter a fuel (cur + 1),
      List.filter_cons]
    by_cases h : isTradingDay a cur
    · simp [h]
    · simp [h]

/-! ## C9: registration -/

/-- C9: registration is idempotent — the first call on a missing file creates
exactly the single genesis line `{date: initDate, id: 0, positions:
{each symbol: 0, CASH: initialCash}}` with no `this_action` field, and a call
on an existing file returns it unchanged, so registering twice leaves exactly
the one genesis line. -/
theorem register_agent_idempotent (symbols : List String) (initialCash : ℚ)
    (initDate : String) :
    register_agent symbols initialCash initDate none
        = some [LedgerLine.pos initDate 0 none (initPositions symbols initialCash)] ∧
      (∀ lines : List LedgerLine,
        register_agent symbols initialCash initDate (some lines) = some lines) ∧
      register_agent symbols initialCash initDate
          (register_agent symbols initialCash initDate none)
        = some [LedgerLine.pos initDate 0 none (initPositions symbols initialCash)] :=
  ⟨rfl, fun _ => rfl, rfl⟩

/-! ## C8: pending trading dates -/

/-- C8 (amended): `get_trading_dates` starts from the ledger's last recorded
date plus one day — `initDate` is used as the start only when no ledger file
exists (after registering), NOT the maximum of the two — walks up to `endDate`
inclusive, keeps a day exactly when the asset type is crypto or futures or
the day is a Monday–Friday weekday, returns the days in strictly ascending
order, and returns the empty sequence whenever `endDate` is at most the
effective last date. -/
theorem get_trading_dates_spec (a : AssetType) (ledgerMaxDate : Option ℕ)
    (initDate endDate : ℕ) :
    (endDate ≤ ledgerMaxDate.getD initDate →
        get_trading_dates a ledgerMaxDate initDate endDate = []) ∧
      (∀ d, d ∈ get_trading_dates a ledgerMaxDate initDate endDate ↔
        ledgerMaxDate.getD initDate < d ∧ d ≤ endDate ∧ isTradingDay a d) ∧
      List.Sorted (· < ·) (get_trading_dates a ledgerMaxDate initDate endDate) := by
  set m := ledgerMaxDate.getD initDate with hm
  refine ⟨fun h => by simp [get_trading_dates, ← hm, h], ?_, ?_⟩
  · intro d
    by_cases h : endDate ≤ m
    · simp only [get_trading_dates, ← hm, if_pos h, List.not_mem_nil, false_iff]
      rintro ⟨h1, h2, -⟩
      omega
    · simp only [get_trading_dates, ← hm, if_neg h, collectDates, collectGo_eq_filter,
        List.mem_filter, List.mem_range'_1, decide_eq_true_eq]
      constructor
      · rintro ⟨⟨h1, h2⟩, h3⟩
        exact ⟨by omega, by omega, h3⟩
      · rintro ⟨h1, h2, h3⟩
        exact ⟨⟨by omega, by omega⟩, h3⟩
  · by_cases h : endDate ≤ m
    · simp [get_trading_dates, ← hm, if_pos h]
    · simp only [get_trading_dates, ← hm, if_neg h, collectDates, collectGo_eq_filter]
      exact List.Pairwise.sublist (List.filter_sublist _) (List.pairwise_lt_range' _ _)

/-- C8 witness: with the ledger's last recorded date 2025-10-17 (day 20378)
and `endDate` 2025-10-16 (day 20377), re-running the range yields no pending
dates. -/
theorem get_trading_dates_spec_witness :
    get_trading_dates AssetType.stock (some 20378) 20370 20377 = [] :=
  (get_trading_dates_spec AssetType.stock (some 20378) 20370 20377).1 (by decide)

/-- C8 counterexample: with a ledger whose last recorded date is 2025-10-10
(day 20371, a Friday), `initDate` 2025-10-15 (day 20376) and `endDate`
2025-10-16 (day 20377), the code starts from the ledger date plus one and
returns the four weekdays 2025-10-13 … 2025-10-16, not the single day
`max(ledgerLastDate, initDate) + 1 = 2025-10-16` the claim requires. -/
theorem get_trading_dates_counterexample :
    get_trading_dates AssetType.stock (some 20371) 20376 20377
        = [20374, 20375, 20376, 20377] ∧
      get_trading_dates AssetType.stock (some 20371) 20376 20377 ≠ [20377] := by
  decide

/-! ## Futures latest-of-date scan lemmas -/

theorem futuresLatestScan_fold_none (targetDate : String) :
    ∀ (data : FutSeries) (acc : Option (FKey × Dict)),
      data.foldl (latestStep targetDate) acc = none
        ↔ acc = none ∧ ∀ e ∈ data, ¬ e.1.date = targetDate := by
  intro data
  induction data with
  | nil => simp
  | cons e rest ih =>
    intro acc
    rw [List.foldl_cons, ih]
    by_cases hm : e.1.date = targetDate
    · cases acc with
      | none => simp [latestStep, hm]
      | some best =>
        by_cases hc : best.1.secs < e.1.secs <;> simp [latestStep, hm, hc]
    · simp only [latestStep, if_neg hm, List.mem_cons]
      constructor
      · rintro ⟨h1, h2⟩
        refine ⟨h1, ?_⟩
        rintro x (rfl | hx)
        · exact hm
        · exact h2 x hx
      · rintro ⟨h1, h2⟩
        exact ⟨h1, fun x hx => h2 x (Or.inr hx)⟩

theorem futuresLatestScan_fold_some (targetDate : String) :
    ∀ (data : FutSeries) (acc : Option (FKey × Dict)) (b : FKey × Dict),
      data.foldl (latestStep targetDate) acc = some b →
        (acc = some b ∨ (b ∈ data ∧ b.1.date = targetDate)) ∧
          (∀ e ∈ data, e.1.date = targetDate → e.1.secs ≤ b.1.secs) ∧
          (∀ b0, acc = some b0 → b0.1.secs ≤ b.1.secs) := by
  intro data
  induction data with
  | nil =>
    intro acc b h
    simp only [List.foldl_nil] at h
    refine ⟨Or.inl h, by simp, fun b0 hb0 => ?_⟩
    rw [hb0] at h
    cases h
    exact le_refl _
  | cons e rest ih =>
    intro acc b h
    rw [List.foldl_cons] at h
    by_cases hm : e.1.date = targetDate
    · cases acc with
      | none =>
        rw [show latestStep targetDate none e = some e by simp [latestStep, hm]] at h
        obtain ⟨h1, h2, h3⟩ := ih (some e) b h
        refine ⟨?_, ?_, by simp⟩
        · rcases h1 with h1 | h1
          · refine Or.inr ⟨?_, ?_⟩
            · rw [← Option.some_inj.mp h1]
              exact List.mem_cons_self _ _
            · rw [← Option.some_inj.mp h1]
              exact hm
          · exact Or.inr ⟨List.mem_cons_of_mem _ h1.1, h1.2⟩
        · intro x hx hxm
          rcases List.mem_cons.mp hx with hxe | hx
          · rw [hxe]
            exact h3 _ rfl
          · exact h2 x hx hxm
      | some best =>
        by_cases hc : best.1.secs < e.1.secs
        · rw [show latestStep targetDate (some best) e = some e by
            simp [latestStep, hm, hc]] at h
          obtain ⟨h1, h2, h3⟩ := ih (some e) b h
          refine ⟨?_, ?_, ?_⟩
          · rcases h1 with h1 | h1
            · refine Or.inr ⟨?_, ?_⟩
              · rw [← Option.some_inj.mp h1]
                exact List.mem_cons_self _ _
              · rw [← Option.some_inj.mp h1]
                exact hm
            · exact Or.inr ⟨List.mem_cons_of_mem _ h1.1, h1.2⟩
          · intro x hx hxm
            rcases List.mem_cons.mp hx with hxe | hx
            · rw [hxe]
              exact h3 _ rfl
            · exact h2 x hx hxm
          · intro b0 hb0
            cases hb0
            exact le_of_lt (lt_of_lt_of_le hc (h3 _ rfl))
        · rw [show latestStep targetDate (some best) e = some best by
            simp [latestStep, hm, hc]] at h
          obtain ⟨h1, h2, h3⟩ := ih (some best) b h
          refine ⟨?_, ?_, ?_⟩
          · rcases h1 with h1 | h1
            · exact Or.inl h1
            · exact Or.inr ⟨List.mem_cons_of_mem _ h1.1, h1.2⟩
          · intro x hx hxm
            rcases List.mem_cons.mp hx with hxe | hx
            · rw [hxe]
              exact le_trans (not_lt.mp hc) (h3 _ rfl)
            · exact h2 x hx hxm
          · exact h3
    · rw [show latestStep targetDate acc e = acc by simp [latestStep, hm]] at h
      obtain ⟨h1, h2, h3⟩ := ih acc b h
      refine ⟨?_, ?_, h3⟩
      · rcases h1 with h1 | h1
        · exact Or.inl h1
        · exact Or.inr ⟨List.mem_cons_of_mem _ h1.1, h1.2⟩
      · intro x hx hxm
        rcases List.mem_cons.mp hx with hxe | hx
        · rw [hxe] at hxm
          exact absurd hxm hm
        · exact h2 x hx hxm

/-! ## C6: price-on-date lookup -/

/-- C6 (amended): the FIRST `get_futures_price_on_date` definition implements
the claimed latest-matching-prefix selection — on a date with no stored
timestamp it returns `None`, and otherwise it returns the requested field of
a stored entry of that date whose timestamp is maximal among all entries of
the date (date-only keys parsing to midnight) — but that definition is
shadowed: the SECOND, effective `get_futures_price_on_date` instead delegates
to `get_futures_price_at_time(symbol, date, "23:59", field)`, the
closest-to-23:59 variant, which raises on date-only keys. -/
theorem futures_price_on_date_spec (data : FutSeries)
    (targetDate priceType : String) :
    get_futures_price_on_date data targetDate priceType
        = get_futures_price_at_time data targetDate secs2359 priceType ∧
      ((∀ e ∈ data, ¬ e.1.date = targetDate) →
        get_futures_price_on_date_v1 data targetDate priceType = none) ∧
      (∀ e0 ∈ data, e0.1.date = targetDate →
        ∃ e ∈ data, e.1.date = targetDate ∧
          (∀ e2 ∈ data, e2.1.date = targetDate → e2.1.secs ≤ e.1.secs) ∧
          get_futures_price_on_date_v1 data targetDate priceType
            = dictGet e.2 priceType) := by
  refine ⟨rfl, ?_, ?_⟩
  · intro h
    have hs : futuresLatestScan data targetDate = none :=
      (futuresLatestScan_fold_none targetDate data none).mpr ⟨rfl, h⟩
    simp [get_futures_price_on_date_v1, hs]
  · intro e0 he0 hm0
    rcases hb : futuresLatestScan data targetDate with _ | b
    · exact absurd
        (((futuresLatestScan_fold_none targetDate data none).mp hb).2 e0 he0) (by simp [hm0])
    · obtain ⟨h1, h2, -⟩ := futuresLatestScan_fold_some targetDate data none b hb
      rcases h1 with h1 | h1
      · exact absurd h1 (by simp)
      · exact ⟨b, h1.1, h1.2, h2, by simp [get_futures_price_on_date_v1, hb]⟩

/-- C6 witness: a two-candle day — the shadowed first definition returns the
field of the later candle, while the effective definition agrees with the
23:59 lookup. -/
theorem futures_price_on_date_spec_witness :
    get_futures_price_on_date
          [(FKey.dateTime "2025-10-13" 3600, [("open", 3)]),
            (FKey.dateTime "2025-10-13" 7200, [("open", 4)])] "2025-10-13" "open"
        = get_futures_price_at_time
          [(FKey.dateTime "2025-10-13" 3600, [("open", 3)]),
            (FKey.dateTime "2025-10-13" 7200, [("open", 4)])] "2025-10-13" secs2359 "open" ∧
      get_futures_price_on_date_v1
          [(FKey.dateTime "2025-10-13" 3600, [("open", 3)]),
            (FKey.dateTime "2025-10-13" 7200, [("open", 4)])] "2025-10-13" "open"
        = some 4 := by
  constructor
  · exact (futures_price_on_date_spec
      [(FKey.dateTime "2025-10-13" 3600, [("open", 3)]),
        (FKey.dateTime "2025-10-13" 7200, [("open", 4)])] "2025-10-13" "open").1
  · obtain ⟨e, he, hed, hmax, hv⟩ := (futures_price_on_date_spec
      [(FKey.dateTime "2025-10-13" 3600, [("open", 3)]),
        (FKey.dateTime "2025-10-13" 7200, [("open", 4)])] "2025-10-13" "open").2.2
      (FKey.dateTime "2025-10-13" 7200, [("open", 4)]) (by simp) rfl
    rw [hv]
    have h2 := hmax (FKey.dateTime "2025-10-13" 7200, [("open", 4)]) (by simp) rfl
    rcases List.mem_cons.mp he with rfl | he2
    · simp [FKey.secs] at h2
    · rcases List.mem_cons.mp he2 with rfl | he3
      · simp [dictGet]
      · simp at he3

/-- C6 counterexample: on a series whose key for 2025-10-13 is date-only, the
effective `get_futures_price_on_date` raises `ValueError` (only `KeyError` is
caught downstream), whereas the claim requires the latest-matching-prefix
value `open = 101`; the shadowed first definition does return it. -/
theorem futures_price_on_date_counterexample :
    get_futures_price_on_date [(FKey.dateOnly "2025-10-13", [("open", 101)])]
          "2025-10-13" "open"
        = .error "ValueError: unconverted data in strptime" ∧
      get_futures_price_on_date_v1 [(FKey.dateOnly "2025-10-13", [("open", 101)])]
          "2025-10-13" "open"
        = some 101 := by
  constructor
  · rfl
  · rfl

/-! ## Futures closest-of-time scan lemmas -/

theorem closestScan_cons_skip (targetDate : String) (targetSecs : ℕ)
    (e : FKey × Dict) (rest : FutSeries) (hm : ¬ e.1.date = targetDate) :
    futuresClosestScan (e :: rest) targetDate targetSecs
      = futuresClosestScan rest targetDate targetSecs := by
  simp [futuresClosestScan, hm]

theorem closestScan_cons_dateOnly (targetDate : String) (targetSecs : ℕ)
    (d : String) (rec : Dict) (rest : FutSeries) (hm : d = targetDate) :
    futuresClosestScan ((FKey.dateOnly d, rec) :: rest) targetDate targetSecs
      = .error "ValueError: unconverted data in strptime" := by
  simp [futuresClosestScan, FKey.date, hm]

theorem closestScan_cons_timed (targetDate : String) (targetSecs : ℕ)
    (d : String) (s : ℕ) (rec : Dict) (rest : FutSeries) (hm : d = targetDate) :
    futuresClosestScan ((FKey.dateTime d s, rec) :: rest) targetDate targetSecs
      = match futuresClosestScan rest targetDate targetSecs with
        | .error msg => .error msg
        | .ok none => .ok (some (((s : ℤ) - targetSecs).natAbs, rec))
        | .ok (some best) =>
          if best.1 < ((s : ℤ) - targetSecs).natAbs then .ok (some best)
          else .ok (some (((s : ℤ) - targetSecs).natAbs, rec)) := by
  simp [futuresClosestScan, FKey.date, hm]

theorem futuresClosestScan_ok_none (targetDate : String) (targetSecs : ℕ) :
    ∀ data : FutSeries,
      futuresClosestScan data targetDate targetSecs = .ok none
        ↔ ∀ e ∈ data, ¬ e.1.date = targetDate := by
  intro data
  induction data with
  | nil => simp [futuresClosestScan]
  | cons e rest ih =>
    by_cases hm : e.1.date = targetDate
    · rcases e with ⟨k, rec⟩
      have hne : ¬ futuresClosestScan ((k, rec) :: rest) targetDate targetSecs = .ok none := by
        cases k with
        | dateOnly d =>
          rw [closestScan_cons_dateOnly targetDate targetSecs d rec rest hm]
          intro h
          cases h
        | dateTime d s =>
          rw [closestScan_cons_timed targetDate targetSecs d s rec rest hm]
          rcases hr : futuresClosestScan rest targetDate targetSecs with msg | _ | best
          · intro h
            cases h
          · intro h
            cases h
          · dsimp only
            by_cases hc : best.1 < ((s : ℤ) - targetSecs).natAbs
            · rw [if_pos hc]
              intro h
              cases h
            · rw [if_neg hc]
              intro h
              cases h
      simp only [hne, false_iff]
      intro h
      exact absurd hm (h _ (List.mem_cons_self _ _))
    · rw [closestScan_cons_skip targetDate targetSecs e rest hm, ih]
      constructor
      · intro h x hx
        rcases List.mem_cons.mp hx with hxe | hx2
        · rw [hxe]
          exact hm
        · exact h x hx2
      · intro h x hx
        exact h x (List.mem_cons_of_mem _ hx)

theorem futuresClosestScan_no_error (targetDate : String) (targetSecs : ℕ) :
    ∀ data : FutSeries,
      (∀ rec d, (FKey.dateOnly d, rec) ∈ data → ¬ d = targetDate) →
      ∀ msg, ¬ futuresClosestScan data targetDate targetSecs = .error msg := by
  intro data
  induction data with
  | nil =>
    intro _ msg h
    cases h
  | cons e rest ih =>
    intro hno msg h
    have hrest : ∀ rec d, (FKey.dateOnly d, rec) ∈ rest → ¬ d = targetDate :=
      fun rec d hmem => hno rec d (List.mem_cons_of_mem _ hmem)
    by_cases hm : e.1.date = targetDate
    · rcases e with ⟨k, rec⟩
      cases k with
      | dateOnly d =>
        exact absurd hm (hno rec d (List.mem_cons_self _ _))
      | dateTime d s =>
        rw [closestScan_cons_timed targetDate targetSecs d s rec rest hm] at h
        rcases hr : futuresClosestScan rest targetDate targetSecs with m2 | _ | best
        · exact ih hrest m2 hr
        · rw [hr] at h
          cases h
        · rw [hr] at h
          dsimp only at h
          by_cases hc : best.1 < ((s : ℤ) - targetSecs).natAbs
          · rw [if_pos hc] at h
            cases h
          · rw [if_neg hc] at h
            cases h
    · rw [closestScan_cons_skip targetDate targetSecs e rest hm] at h
      exact ih hrest msg h

theorem futuresClosestScan_ok_some (targetDate : String) (targetSecs : ℕ) :
    ∀ (data : FutSeries) (b : ℕ × Dict),
      futuresClosestScan data targetDate targetSecs = .ok (some b) →
        ∃ l1 s rec l2,
          data = l1 ++ (FKey.dateTime targetDate s, rec) :: l2 ∧
            b = (((s : ℤ) - targetSecs).natAbs, rec) ∧
            (∀ e ∈ data, e.1.date = targetDate →
              b.1 ≤ ((e.1.secs : ℤ) - targetSecs).natAbs) ∧
            (∀ e ∈ l1, e.1.date = targetDate →
              b.1 < ((e.1.secs : ℤ) - targetSecs).natAbs) := by
  intro data
  induction data with
  | nil =>
    intro b h
    cases h
  | cons e rest ih =>
    intro b h
    by_cases hm : e.1.date = targetDate
    · rcases e with ⟨k, rec0⟩
      cases k with
      | dateOnly d =>
        rw [closestScan_cons_dateOnly targetDate targetSecs d rec0 rest hm] at h
        cases h
      | dateTime d s0 =>
        have hd : d = targetDate := hm
        rw [closestScan_cons_timed targetDate targetSecs d s0 rec0 rest hm] at h
        rcases hr : futuresClosestScan rest targetDate targetSecs with m2 | _ | best
        · rw [hr] at h
          cases h
        · rw [hr] at h
          cases h
          refine ⟨[], s0, rec0, rest, by simp [hd], rfl, ?_, by simp⟩
          intro x hx hxm
          rcases List.mem_cons.mp hx with hxe | hx2
          · rw [hxe]
            exact le_refl _
          · exact absurd hxm
              (((futuresClosestScan_ok_none targetDate targetSecs rest).mp hr) x hx2)
        · rw [hr] at h
          dsimp only at h
          by_cases hc : best.1 < ((s0 : ℤ) - targetSecs).natAbs
          · rw [if_pos hc] at h
            cases h
            obtain ⟨l1, s, rec, l2, hsplit, hb, hglob, hpref⟩ := ih b hr
            refine ⟨(FKey.dateTime d s0, rec0) :: l1, s, rec, l2, by
              simp [hsplit], hb, ?_, ?_⟩
            · intro x hx hxm
              rcases List.mem_cons.mp hx with hxe | hx2
              · rw [hxe]
                exact le_of_lt (by simpa [FKey.secs] using hc)
              · exact hglob x hx2 hxm
            · intro x hx hxm
              rcases List.mem_cons.mp hx with hxe | hx2
              · rw [hxe]
                simpa [FKey.secs] using hc
              · exact hpref x hx2 hxm
          · rw [if_neg hc] at h
            cases h
            obtain ⟨l1, s, rec, l2, hsplit, hb, hglob, hpref⟩ := ih best hr
            refine ⟨[], s0, rec0, rest, by simp [hd], rfl, ?_, by simp⟩
            intro x hx hxm
            rcases List.mem_cons.mp hx with hxe | hx2
            · rw [hxe]
              exact le_refl _
            · calc (((s0 : ℤ) - targetSecs).natAbs : ℕ) ≤ best.1 := not_lt.mp hc
                _ ≤ ((x.1.secs : ℤ) - targetSecs).natAbs := hglob x hx2 hxm
    · rw [closestScan_cons_skip targetDate targetSecs e rest hm] at h
      obtain ⟨l1, s, rec, l2, hsplit, hb, hglob, hpref⟩ := ih b h
      refine ⟨e :: l1, s, rec, l2, by simp [hsplit], hb, ?_, ?_⟩
      · intro x hx hxm
        rcases List.mem_cons.mp hx with hxe | hx2
        · rw [hxe] at hxm
          exact absurd hxm hm
        · exact hglob x hx2 hxm
      · intro x hx hxm
        rcases List.mem_cons.mp hx with hxe | hx2
        · rw [hxe] at hxm
          exact absurd hxm hm
        · exact hpref x hx2 hxm

/-! ## C7: price-at-time lookup -/

/-- C7 (amended): `get_futures_price_at_time` returns the field of the
exactly matching timestamp when one exists; otherwise, provided no date-only
key sits on that date (such a key raises), it falls back to a stored
timestamp of that date whose absolute difference from the target is minimal —
ties broken in favour of the entry occurring FIRST in the stored key order
(which is the earliest timestamp only when the keys are stored in ascending
order), every matching entry in front of the chosen one having a strictly
greater difference; and when no timestamp of that date exists at all it
returns `None`. -/
theorem futures_price_at_time_spec (data : FutSeries) (targetDate : String)
    (targetSecs : ℕ) (priceType : String) :
    (∀ ex, data.find? (fun e => e.1 = FKey.dateTime targetDate targetSecs) = some ex →
        get_futures_price_at_time data targetDate targetSecs priceType
          = .ok (dictGet ex.2 priceType)) ∧
      ((∀ e ∈ data, ¬ e.1.date = targetDate) →
        get_futures_price_at_time data targetDate targetSecs priceType = .ok none) ∧
      (data.find? (fun e => e.1 = FKey.dateTime targetDate targetSecs) = none →
        (∀ rec d, (FKey.dateOnly d, rec) ∈ data → ¬ d = targetDate) →
        ∀ e0 ∈ data, e0.1.date = targetDate →
          ∃ l1 s rec l2,
            data = l1 ++ (FKey.dateTime targetDate s, rec) :: l2 ∧
              (∀ e ∈ data, e.1.date = targetDate →
                (((s : ℤ) - targetSecs).natAbs : ℕ)
                  ≤ ((e.1.secs : ℤ) - targetSecs).natAbs) ∧
              (∀ e ∈ l1, e.1.date = targetDate →
                (((s : ℤ) - targetSecs).natAbs : ℕ)
                  < ((e.1.secs : ℤ) - targetSecs).natAbs) ∧
              get_futures_price_at_time data targetDate targetSecs priceType
                = .ok (dictGet rec priceType)) := by
  refine ⟨?_, ?_, ?_⟩
  · intro ex hex
    simp [get_futures_price_at_time, hex]
  · intro h
    have hfind : data.find? (fun e => e.1 = FKey.dateTime targetDate targetSecs) = none := by
      rw [List.find?_eq_none]
      intro x hx
      simp only [decide_eq_true_eq]
      intro hxk
      exact h x hx (by rw [hxk]; rfl)
    have hscan : futuresClosestScan data targetDate targetSecs = .ok none :=
      (futuresClosestScan_ok_none targetDate targetSecs data).mpr h
    simp [get_futures_price_at_time, hfind, hscan]
  · intro hfind hnodo e0 he0 hm0
    rcases hscan : futuresClosestScan data targetDate targetSecs with msg | _ | b
    · exact absurd hscan (futuresClosestScan_no_error targetDate targetSecs data hnodo msg)
    · exact absurd hm0
        (((futuresClosestScan_ok_none targetDate targetSecs data).mp hscan) e0 he0)
    · obtain ⟨l1, s, rec, l2, hsplit, hb, hglob, hpref⟩ :=
        futuresClosestScan_ok_some targetDate targetSecs data b hscan
      refine ⟨l1, s, rec, l2, hsplit, ?_, ?_, ?_⟩
      · intro x hx hxm
        have := hglob x hx hxm
        rw [hb] at this
        exact this
      · intro x hx hxm
        have := hpref x hx hxm
        rw [hb] at this
        exact this
      · have : b.2 = rec := by rw [hb]
        simp [get_futures_price_at_time, hfind, hscan, this]

/-- C7 witness: an exact timestamp hit returns that entry's field. -/
theorem futures_price_at_time_spec_witness :
    get_futures_price_at_time [(FKey.dateTime "2025-10-13" 43200, [("open", 9)])]
        "2025-10-13" 43200 "open"
      = .ok (dictGet [("open", 9)] "open") :=
  (futures_price_at_time_spec [(FKey.dateTime "2025-10-13" 43200, [("open", 9)])]
    "2025-10-13" 43200 "open").1 (FKey.dateTime "2025-10-13" 43200, [("open", 9)]) rfl

/-- C7 counterexample: target time 12:00:00 (43200 s) with the 12:01:00 entry
(`open = 5`) stored BEFORE the equidistant 11:59:00 entry (`open = 7`): the
code keeps the first-encountered minimum and returns 5, whereas the claim's
"ties broken in favour of the earliest such timestamp" requires the 11:59:00
value 7. -/
theorem futures_price_at_time_counterexample :
    get_futures_price_at_time
          [(FKey.dateTime "2025-10-13" 43260, [("open", 5)]),
            (FKey.dateTime "2025-10-13" 43140, [("open", 7)])] "2025-10-13" 43200 "open"
        = .ok (some 5) ∧
      (Except.ok (some 5) : Except String (Option ℚ)) ≠ .ok (some 7) := by
  refine ⟨rfl, ?_⟩
  intro h
  simp only [Except.ok.injEq, Option.some_inj] at h
  norm_num at h

/-! ## Latest-position lemmas -/

theorem lp_foldl_cases :
    ∀ (rest : List LedgerLine) (acc : Dict × ℕ),
      rest.foldl lpStep acc = acc ∨
        ∃ e ∈ rest, rest.foldl lpStep acc = (e.holdings, e.aid) := by
  intro rest
  induction rest with
  | nil => intro acc; exact Or.inl rfl
  | cons e rest ih =>
    intro acc
    rw [List.foldl_cons]
    rcases ih (lpStep acc e) with h | ⟨x, hx, h⟩
    · rw [h]
      unfold lpStep
      by_cases hc : acc.2 ≤ e.aid
      · exact Or.inr ⟨e, List.mem_cons_self _ _, by rw [if_pos hc]⟩
      · exact Or.inl (by rw [if_neg hc])
    · exact Or.inr ⟨x, List.mem_cons_of_mem _ hx, h⟩

theorem lp_foldl_ge :
    ∀ (rest : List LedgerLine) (acc : Dict × ℕ),
      acc.2 ≤ (rest.foldl lpStep acc).2 ∧
        ∀ e ∈ rest, e.aid ≤ (rest.foldl lpStep acc).2 := by
  intro rest
  induction rest with
  | nil => intro acc; exact ⟨le_refl _, by simp⟩
  | cons e rest ih =>
    intro acc
    rw [List.foldl_cons]
    obtain ⟨h1, h2⟩ := ih (lpStep acc e)
    have hstep : acc.2 ≤ (lpStep acc e).2 ∧ e.aid ≤ (lpStep acc e).2 := by
      unfold lpStep
      by_cases hc : acc.2 ≤ e.aid
      · rw [if_pos hc]
        exact ⟨hc, le_refl _⟩
      · rw [if_neg hc]
        exact ⟨le_refl _, le_of_lt (not_le.mp hc)⟩
    refine ⟨le_trans hstep.1 h1, ?_⟩
    intro x hx
    rcases List.mem_cons.mp hx with hxe | hx2
    · rw [hxe]
      exact le_trans hstep.2 h1
    · exact h2 x hx2

theorem get_latest_position_mem (l : List LedgerLine) (hne : l ≠ []) :
    ∃ e ∈ l, get_latest_position l = (e.holdings, e.aid) := by
  match l with
  | [] => exact absurd rfl hne
  | first :: rest =>
    show ∃ e ∈ first :: rest, rest.foldl lpStep (first.holdings, first.aid) = (e.holdings, e.aid)
    rcases lp_foldl_cases rest (first.holdings, first.aid) with h | ⟨x, hx, h⟩
    · exact ⟨first, List.mem_cons_self _ _, h⟩
    · exact ⟨x, List.mem_cons_of_mem _ hx, h⟩

theorem get_latest_position_ge (l : List LedgerLine) :
    ∀ e ∈ l, e.aid ≤ (get_latest_position l).2 := by
  match l with
  | [] => simp
  | first :: rest =>
    intro e he
    show e.aid ≤ (rest.foldl lpStep (first.holdings, first.aid)).2
    obtain ⟨h1, h2⟩ := lp_foldl_ge rest (first.holdings, first.aid)
    rcases List.mem_cons.mp he with hef | her
    · rw [hef]
      exact h1
    · exact h2 e her

theorem get_latest_position_of_range (l : List LedgerLine)
    (hids : l.map LedgerLine.aid = List.range l.length) (hne : l ≠ []) :
    (get_latest_position l).2 = l.length - 1 := by
  have hlen : 0 < l.length := List.length_pos.mpr hne
  have hmem : l.length - 1 ∈ l.map LedgerLine.aid := by
    rw [hids, List.mem_range]
    omega
  obtain ⟨e0, he0, he0id⟩ := List.mem_map.mp hmem
  have hge : l.length - 1 ≤ (get_latest_position l).2 := by
    rw [← he0id]
    exact get_latest_position_ge l e0 he0
  obtain ⟨e, he, heq⟩ := get_latest_position_mem l hne
  have hlt : (get_latest_position l).2 < l.length := by
    rw [heq]
    have : e.aid ∈ l.map LedgerLine.aid := List.mem_map.mpr ⟨e, he, rfl⟩
    rw [hids, List.mem_range] at this
    exact this
  omega

/-! ## Branch shapes of the stock and crypto executors -/

theorem stockBuy_shape (env : Env) (l : List LedgerLine) (s : String) (a : ℚ) :
    (∃ msg, stockBuy env l s a = (.exn msg, l)) ∨
      (∃ err, stockBuy env l s a = (.error err, l)) ∨
      (∃ price cash held,
        env.openPrices env.today s = some price ∧
          dictGet (get_latest_position l).1 "CASH" = some cash ∧
          0 ≤ cash - price * a ∧
          dictGet (dictSet (get_latest_position l).1 "CASH" (cash - price * a)) s
            = some held ∧
          stockBuy env l s a =
            (.success
              (dictSet (dictSet (get_latest_position l).1 "CASH" (cash - price * a)) s
                (held + a))
              (LedgerLine.pos env.today ((get_latest_position l).2 + 1)
                (some ⟨"buy", s, a⟩)
                (dictSet (dictSet (get_latest_position l).1 "CASH" (cash - price * a)) s
                  (held + a))),
              l ++ [LedgerLine.pos env.today ((get_latest_position l).2 + 1)
                (some ⟨"buy", s, a⟩)
                (dictSet (dictSet (get_latest_position l).1 "CASH" (cash - price * a)) s
                  (held + a))])) := by
  rcases hp : env.openPrices env.today s with _ | price
  · exact Or.inr (Or.inl ⟨⟨.symbolNotFound, s, env.today, none, none, none, none⟩,
      by simp [stockBuy, hp]⟩)
  · rcases hc : dictGet (get_latest_position l).1 "CASH" with _ | cash
    · exact Or.inl ⟨"KeyError: CASH", by simp [stockBuy, hp, hc]⟩
    · by_cases hlt : cash - price * a < 0
      · exact Or.inr (Or.inl ⟨⟨.insufficientCash, s, env.today, some (price * a),
          some (dictGetD (get_latest_position l).1 "CASH" 0), none, none⟩,
          by simp [stockBuy, hp, hc, hlt]⟩)
      · rcases hh : dictGet (dictSet (get_latest_position l).1 "CASH" (cash - price * a)) s
            with _ | held
        · exact Or.inl ⟨"KeyError: symbol", by simp [stockBuy, hp, hc, hlt, hh]⟩
        · exact Or.inr (Or.inr ⟨price, cash, held, rfl, rfl, not_lt.mp hlt, hh,
            by simp [stockBuy, hp, hc, hlt, hh]⟩)

theorem stockSell_shape (env : Env) (l : List LedgerLine) (s : String) (a : ℚ) :
    (∃ err, stockSell env l s a = (.error err, l)) ∨
      (∃ price held,
        env.openPrices env.today s = some price ∧
          dictGet (get_latest_position l).1 s = some held ∧
          ¬ held < a ∧
          stockSell env l s a =
            (.success
              (dictSet (dictSet (get_latest_position l).1 s (held - a)) "CASH"
                (dictGetD (dictSet (get_latest_position l).1 s (held - a)) "CASH" 0
                  + price * a))
              (LedgerLine.pos env.today ((get_latest_position l).2 + 1)
                (some ⟨"sell", s, a⟩)
                (dictSet (dictSet (get_latest_position l).1 s (held - a)) "CASH"
                  (dictGetD (dictSet (get_latest_position l).1 s (held - a)) "CASH" 0
                    + price * a))),
              l ++ [LedgerLine.pos env.today ((get_latest_position l).2 + 1)
                (some ⟨"sell", s, a⟩)
                (dictSet (dictSet (get_latest_position l).1 s (held - a)) "CASH"
                  (dictGetD (dictSet (get_latest_position l).1 s (held - a)) "CASH" 0
                    + price * a))])) := by
  rcases hp : env.openPrices env.today s with _ | price
  · exact Or.inl ⟨⟨.symbolNotFound, s, env.today, none, none, none, none⟩,
      by simp [stockSell, hp]⟩
  · rcases hpos : dictGet (get_latest_position l).1 s with _ | held
    · exact Or.inl ⟨⟨.noPosition, s, env.today, none, none, none, none⟩,
        by simp [stockSell, hp, hpos]⟩
    · by_cases hlt : held < a
      · exact Or.inl ⟨⟨.insufficientShares, s, env.today, none, none,
          some (dictGetD (get_latest_position l).1 s 0), some a⟩,
          by simp [stockSell, hp, hpos, hlt]⟩
      · exact Or.inr ⟨price, held, rfl, rfl, hlt,
          by simp [stockSell, hp, hpos, hlt]⟩

theorem cryptoBuy_shape (env : Env) (l : List LedgerLine) (s : String) (a : ℚ) :
    (∃ msg, cryptoBuy env l s a = (.exn msg, l)) ∨
      (∃ err, cryptoBuy env l s a = (.error err, l)) ∨
      (∃ price cash,
        s ∈ SUPPORTED_CRYPTOS ∧
          get_crypto_price_on_date (env.cryptoFiles s) env.today "open" = some price ∧
          dictGet (get_latest_position l).1 "CASH" = some cash ∧
          0 ≤ cash - price * a ∧
          cryptoBuy env l s a =
            (.success
              (dictSet (dictSet (get_latest_position l).1 "CASH" (cash - price * a)) s
                (dictGetD (dictSet (get_latest_position l).1 "CASH" (cash - price * a)) s 0
                  + a))
              (LedgerLine.pos env.today ((get_latest_position l).2 + 1)
                (some ⟨"buy_crypto", s, a⟩)
                (dictSet (dictSet (get_latest_position l).1 "CASH" (cash - price * a)) s
                  (dictGetD (dictSet (get_latest_position l).1 "CASH" (cash - price * a)) s 0
                    + a))),
              l ++ [LedgerLine.pos env.today ((get_latest_position l).2 + 1)
                (some ⟨"buy_crypto", s, a⟩)
                (dictSet (dictSet (get_latest_position l).1 "CASH" (cash - price * a)) s
                  (dictGetD (dictSet (get_latest_position l).1 "CASH" (cash - price * a)) s 0
                    + a))])) := by
  by_cases hsup : s ∈ SUPPORTED_CRYPTOS
  · rcases hp : get_crypto_price_on_date (env.cryptoFiles s) env.today "open" with _ | price
    · exact Or.inr (Or.inl ⟨⟨.priceUnavailable, s, env.today, none, none, none, none⟩,
        by simp [cryptoBuy, hsup, hp]⟩)
    · rcases hc : dictGet (get_latest_position l).1 "CASH" with _ | cash
      · exact Or.inl ⟨"KeyError: CASH", by simp [cryptoBuy, hsup, hp, hc]⟩
      · by_cases hlt : cash - price * a < 0
        · exact Or.inr (Or.inl ⟨⟨.insufficientCash, s, env.today, some (price * a),
            some (dictGetD (get_latest_position l).1 "CASH" 0), none, none⟩,
            by simp [cryptoBuy, hsup, hp, hc, hlt]⟩)
        · exact Or.inr (Or.inr ⟨price, cash, hsup, rfl, rfl, not_lt.mp hlt,
            by simp [cryptoBuy, hsup, hp, hc, hlt]⟩)
  · exact Or.inl ⟨"ValueError: Unsupported cryptocurrency", by simp [cryptoBuy, hsup]⟩

theorem cryptoSell_shape (env : Env) (l : List LedgerLine) (s : String) (a : ℚ) :
    (∃ msg, cryptoSell env l s a = (.exn msg, l)) ∨
      (∃ err, cryptoSell env l s a = (.error err, l)) ∨
      (∃ price held,
        s ∈ SUPPORTED_CRYPTOS ∧
          get_crypto_price_on_date (env.cryptoFiles s) env.today "open" = some price ∧
          dictGet (get_latest_position l).1 s = some held ∧
          ¬ held < a ∧
          cryptoSell env l s a =
            (.success
              (dictSet (dictSet (get_latest_position l).1 s (held - a)) "CASH"
                (dictGetD (dictSet (get_latest_position l).1 s (held - a)) "CASH" 0
                  + price * a))
              (LedgerLine.pos env.today ((get_latest_position l).2 + 1)
                (some ⟨"sell_crypto", s, a⟩)
                (dictSet (dictSet (get_latest_position l).1 s (held - a)) "CASH"
                  (dictGetD (dictSet (get_latest_position l).1 s (held - a)) "CASH" 0
                    + price * a))),
              l ++ [LedgerLine.pos env.today ((get_latest_position l).2 + 1)
                (some ⟨"sell_crypto", s, a⟩)
                (dictSet (dictSet (get_latest_position l).1 s (held - a)) "CASH"
                  (dictGetD (dictSet (get_latest_position l).1 s (held - a)) "CASH" 0
                    + price * a))])) := by
  by_cases hsup : s ∈ SUPPORTED_CRYPTOS
  · rcases hp : get_crypto_price_on_date (env.cryptoFiles s) env.today "open" with _ | price
    · exact Or.inr (Or.inl ⟨⟨.priceUnavailable, s, env.today, none, none, none, none⟩,
        by simp [cryptoSell, hsup, hp]⟩)
    · rcases hpos : dictGet (get_latest_position l).1 s with _ | held
      · exact Or.inr (Or.inl ⟨⟨.noPosition, s, env.today, none, none, none, none⟩,
          by simp [cryptoSell, hsup, hp, hpos]⟩)
      · by_cases hlt : held < a
        · exact Or.inr (Or.inl ⟨⟨.insufficientShares, s, env.today, none, none,
            some (dictGetD (get_latest_position l).1 s 0), some a⟩,
            by simp [cryptoSell, hsup, hp, hpos, hlt]⟩)
        · exact Or.inr (Or.inr ⟨price, held, hsup, rfl, rfl, hlt,
            by simp [cryptoSell, hsup, hp, hpos, hlt]⟩)
  · exact Or.inl ⟨"ValueError: Unsupported cryptocurrency", by simp [cryptoSell, hsup]⟩

/-! ## C10: frame property of successful trades -/

/-- C10: every successful stock or crypto buy/sell copies the latest snapshot
and modifies only the `CASH` entry and the traded symbol's entry: any other
key maps to exactly the value it had in the previous latest snapshot. -/
theorem trade_frame_property (env : Env) (l : List LedgerLine) (s : String)
    (a : ℚ) (np : Dict) (line : LedgerLine) (nl : List LedgerLine) (k : String)
    (hk1 : k ≠ "CASH") (hk2 : k ≠ s) :
    (stockBuy env l s a = (.success np line, nl) →
        dictGet np k = dictGet (get_latest_position l).1 k) ∧
      (stockSell env l s a = (.success np line, nl) →
        dictGet np k = dictGet (get_latest_position l).1 k) ∧
      (cryptoBuy env l s a = (.success np line, nl) →
        dictGet np k = dictGet (get_latest_position l).1 k) ∧
      (cryptoSell env l s a = (.success np line, nl) →
        dictGet np k = dictGet (get_latest_position l).1 k) := by
  refine ⟨?_, ?_, ?_, ?_⟩
  · intro h
    rcases stockBuy_shape env l s a with ⟨msg, he⟩ | ⟨err, he⟩ |
        ⟨price, cash, held, -, -, -, -, he⟩
    · rw [he] at h
      simp at h
    · rw [he] at h
      simp at h
    · rw [he] at h
      simp only [Prod.mk.injEq, TradeOutcome.success.injEq] at h
      rw [← h.1.1, dictGet_dictSet_ne _ s k _ (Ne.symm hk2),
        dictGet_dictSet_ne _ "CASH" k _ (Ne.symm hk1)]
  · intro h
    rcases stockSell_shape env l s a with ⟨err, he⟩ | ⟨price, held, -, -, -, he⟩
    · rw [he] at h
      simp at h
    · rw [he] at h
      simp only [Prod.mk.injEq, TradeOutcome.success.injEq] at h
      rw [← h.1.1, dictGet_dictSet_ne _ "CASH" k _ (Ne.symm hk1),
        dictGet_dictSet_ne _ s k _ (Ne.symm hk2)]
  · intro h
    rcases cryptoBuy_shape env l s a with ⟨msg, he⟩ | ⟨err, he⟩ |
        ⟨price, cash, -, -, -, -, he⟩
    · rw [he] at h
      simp at h
    · rw [he] at h
      simp at h
    · rw [he] at h
      simp only [Prod.mk.injEq, TradeOutcome.success.injEq] at h
      rw [← h.1.1, dictGet_dictSet_ne _ s k _ (Ne.symm hk2),
        dictGet_dictSet_ne _ "CASH" k _ (Ne.symm hk1)]
  · intro h
    rcases cryptoSell_shape env l s a with ⟨msg, he⟩ | ⟨err, he⟩ |
        ⟨price, held, -, -, -, -, he⟩
    · rw [he] at h
      simp at h
    · rw [he] at h
      simp at h
    · rw [he] at h
      simp only [Prod.mk.injEq, TradeOutcome.success.injEq] at h
      rw [← h.1.1, dictGet_dictSet_ne _ "CASH" k _ (Ne.symm hk1),
        dictGet_dictSet_ne _ s k _ (Ne.symm hk2)]

/-- C10 witness: buying 5 AAPL leaves the untouched MSFT entry of the genesis
snapshot unchanged in the appended holdings. -/
theorem trade_frame_property_witness :
    dictGet [("AAPL", 5), ("MSFT", 0), ("CASH", 9250)] "MSFT"
      = dictGet (get_latest_position
          [genesisLine ["AAPL", "MSFT"] 10000 "2025-11-01"]).1 "MSFT" :=
  (trade_frame_property
    ⟨"2025-11-10", fun _ s => if s = "AAPL" then some 150 else none,
      fun _ => [], fun _ => []⟩
    [genesisLine ["AAPL", "MSFT"] 10000 "2025-11-01"] "AAPL" 5
    [("AAPL", 5), ("MSFT", 0), ("CASH", 9250)]
    (LedgerLine.pos "2025-11-10" 1 (some ⟨"buy", "AAPL", 5⟩)
      [("AAPL", 5), ("MSFT", 0), ("CASH", 9250)])
    ([genesisLine ["AAPL", "MSFT"] 10000 "2025-11-01"]
      ++ [LedgerLine.pos "2025-11-10" 1 (some ⟨"buy", "AAPL", 5⟩)
        [("AAPL", 5), ("MSFT", 0), ("CASH", 9250)]])
    "MSFT" (by decide) (by decide)).1 (by
      simp only [stockBuy, get_latest_position, genesisLine, initPositions,
        LedgerLine.aid, LedgerLine.holdings, lpStep,
        List.map, dictSet, dictGet, dictGetD, List.foldl, String.reduceEq,
        if_true, if_false]
      norm_num)

/-! ## Cash-invariant machinery (C2) -/

theorem dictGetD_nonneg (d : Dict) (k : String)
    (h : ∀ c, dictGet d k = some c → 0 ≤ c) : 0 ≤ dictGetD d k 0 := by
  unfold dictGetD
  rcases hg : dictGet d k with _ | c
  · simp
  · simpa using h c hg

theorem stepOp_cash (env : Env) (l : List LedgerLine) (op : Op)
    (hl : l ≠ [])
    (hinv : ∀ e ∈ l, ∃ c, dictGet e.holdings "CASH" = some c ∧ 0 ≤ c)
    (ha : 0 ≤ op.amount)
    (hsp : ∀ d sym p, env.openPrices d sym = some p → 0 ≤ p)
    (hcp : ∀ sym d p,
      get_crypto_price_on_date (env.cryptoFiles sym) d "open" = some p → 0 ≤ p) :
    (stepOp env l op).2 ≠ [] ∧
      ∀ e ∈ (stepOp env l op).2, ∃ c, dictGet e.holdings "CASH" = some c ∧ 0 ≤ c := by
  obtain ⟨emem, hemem, heq⟩ := get_latest_position_mem l hl
  have hcur : ∀ c, dictGet (get_latest_position l).1 "CASH" = some c → 0 ≤ c := by
    intro c hc
    obtain ⟨c2, hc2, hge⟩ := hinv emem hemem
    rw [heq] at hc
    rw [hc] at hc2
    cases hc2
    exact hge
  cases op with
  | sBuy s a =>
    rcases stockBuy_shape env l s a with ⟨msg, he⟩ | ⟨err, he⟩ |
        ⟨price, cash, held, hp, hc, hnn, hh, he⟩
    · rw [show stepOp env l (Op.sBuy s a) = stockBuy env l s a from rfl, he]
      exact ⟨hl, hinv⟩
    · rw [show stepOp env l (Op.sBuy s a) = stockBuy env l s a from rfl, he]
      exact ⟨hl, hinv⟩
    · rw [show stepOp env l (Op.sBuy s a) = stockBuy env l s a from rfl, he]
      refine ⟨by simp, ?_⟩
      intro e hee
      rcases List.mem_append.mp hee with hee | hee
      · exact hinv e hee
      · rw [List.mem_singleton.mp hee]
        show ∃ c, dictGet (dictSet (dictSet (get_latest_position l).1 "CASH"
          (cash - price * a)) s (held + a)) "CASH" = some c ∧ 0 ≤ c
        by_cases hs : s = "CASH"
        · subst hs
          refine ⟨held + a, dictGet_dictSet_self _ _ _, ?_⟩
          rw [dictGet_dictSet_self] at hh
          cases hh
          have ha2 : (0 : ℚ) ≤ a := ha
          linarith
        · refine ⟨cash - price * a, ?_, hnn⟩
          rw [dictGet_dictSet_ne _ s "CASH" _ hs, dictGet_dictSet_self]
  | sSell s a =>
    rcases stockSell_shape env l s a with ⟨err, he⟩ |
        ⟨price, held, hp, hpos, hlt, he⟩
    · rw [show stepOp env l (Op.sSell s a) = stockSell env l s a from rfl, he]
      exact ⟨hl, hinv⟩
    · rw [show stepOp env l (Op.sSell s a) = stockSell env l s a from rfl, he]
      refine ⟨by simp, ?_⟩
      intro e hee
      rcases List.mem_append.mp hee with hee | hee
      · exact hinv e hee
      · rw [List.mem_singleton.mp hee]
        show ∃ c, dictGet (dictSet (dictSet (get_latest_position l).1 s (held - a)) "CASH"
          (dictGetD (dictSet (get_latest_position l).1 s (held - a)) "CASH" 0
            + price * a)) "CASH" = some c ∧ 0 ≤ c
        refine ⟨_, dictGet_dictSet_self _ _ _, ?_⟩
        have hpr : (0 : ℚ) ≤ price := hsp env.today s price hp
        have ha2 : (0 : ℚ) ≤ a := ha
        have hbase : 0 ≤ dictGetD (dictSet (get_latest_position l).1 s (held - a)) "CASH" 0 := by
          apply dictGetD_nonneg
          intro c hc
          by_cases hs : s = "CASH"
          · subst hs
            rw [dictGet_dictSet_self] at hc
            cases hc
            linarith [not_lt.mp hlt]
          · rw [dictGet_dictSet_ne _ s "CASH" _ hs] at hc
            exact hcur c hc
        have hmul : (0 : ℚ) ≤ price * a := mul_nonneg hpr ha2
        linarith
  | cBuy s a =>
    rcases cryptoBuy_shape env l s a with ⟨msg, he⟩ | ⟨err, he⟩ |
        ⟨price, cash, hsup, hp, hc, hnn, he⟩
    · rw [show stepOp env l (Op.cBuy s a) = cryptoBuy env l s a from rfl, he]
      exact ⟨hl, hinv⟩
    · rw [show stepOp env l (Op.cBuy s a) = cryptoBuy env l s a from rfl, he]
      exact ⟨hl, hinv⟩
    · rw [show stepOp env l (Op.cBuy s a) = cryptoBuy env l s a from rfl, he]
      refine ⟨by simp, ?_⟩
      intro e hee
      rcases List.mem_append.mp hee with hee | hee
      · exact hinv e hee
      · rw [List.mem_singleton.mp hee]
        show ∃ c, dictGet (dictSet (dictSet (get_latest_position l).1 "CASH"
          (cash - price * a)) s
          (dictGetD (dictSet (get_latest_position l).1 "CASH" (cash - price * a)) s 0
            + a)) "CASH" = some c ∧ 0 ≤ c
        by_cases hs : s = "CASH"
        · subst hs
          refine ⟨_, dictGet_dictSet_self _ _ _, ?_⟩
          have ha2 : (0 : ℚ) ≤ a := ha
          have : dictGetD (dictSet (get_latest_position l).1 "CASH" (cash - price * a))
              "CASH" 0 = cash - price * a := by
            unfold dictGetD
            rw [dictGet_dictSet_self]
            rfl
          rw [this]
          linarith
        · refine ⟨cash - price * a, ?_, hnn⟩
          rw [dictGet_dictSet_ne _ s "CASH" _ hs, dictGet_dictSet_self]
  | cSell s a =>
    rcases cryptoSell_shape env l s a with ⟨msg, he⟩ | ⟨err, he⟩ |
        ⟨price, held, hsup, hp, hpos, hlt, he⟩
    · rw [show stepOp env l (Op.cSell s a) = cryptoSell env l s a from rfl, he]
      exact ⟨hl, hinv⟩
    · rw [show stepOp env l (Op.cSell s a) = cryptoSell env l s a from rfl, he]
      exact ⟨hl, hinv⟩
    · rw [show stepOp env l (Op.cSell s a) = cryptoSell env l s a from rfl, he]
      refine ⟨by simp, ?_⟩
      intro e hee
      rcases List.mem_append.mp hee with hee | hee
      · exact hinv e hee
      · rw [List.mem_singleton.mp hee]
        show ∃ c, dictGet (dictSet (dictSet (get_latest_position l).1 s (held - a)) "CASH"
          (dictGetD (dictSet (get_latest_position l).1 s (held - a)) "CASH" 0
            + price * a)) "CASH" = some c ∧ 0 ≤ c
        refine ⟨_, dictGet_dictSet_self _ _ _, ?_⟩
        have hpr : (0 : ℚ) ≤ price := hcp s env.today price hp
        have ha2 : (0 : ℚ) ≤ a := ha
        have hbase : 0 ≤ dictGetD (dictSet (get_latest_position l).1 s (held - a)) "CASH" 0 := by
          apply dictGetD_nonneg
          intro c hc
          by_cases hs : s = "CASH"
          · subst hs
            rw [dictGet_dictSet_self] at hc
            cases hc
            linarith [not_lt.mp hlt]
          · rw [dictGet_dictSet_ne _ s "CASH" _ hs] at hc
            exact hcur c hc
        have hmul : (0 : ℚ) ≤ price * a := mul_nonneg hpr ha2
        linarith

theorem runOps_cash (env : Env)
    (hsp : ∀ d sym p, env.openPrices d sym = some p → 0 ≤ p)
    (hcp : ∀ sym d p,
      get_crypto_price_on_date (env.cryptoFiles sym) d "open" = some p → 0 ≤ p) :
    ∀ (ops : List Op) (l : List LedgerLine), l ≠ [] →
      (∀ e ∈ l, ∃ c, dictGet e.holdings "CASH" = some c ∧ 0 ≤ c) →
      (∀ op ∈ ops, 0 ≤ op.amount) →
      runOps env l ops ≠ [] ∧
        ∀ e ∈ runOps env l ops, ∃ c, dictGet e.holdings "CASH" = some c ∧ 0 ≤ c := by
  intro ops
  induction ops with
  | nil =>
    intro l hl hinv _
    exact ⟨hl, hinv⟩
  | cons op ops ih =>
    intro l hl hinv hamt
    obtain ⟨hne2, hinv2⟩ := stepOp_cash env l op hl hinv
      (hamt op (List.mem_cons_self _ _)) hsp hcp
    have hrw : runOps env l (op :: ops) = runOps env (stepOp env l op).2 ops := by
      simp [runOps]
    rw [hrw]
    exact ih (stepOp env l op).2 hne2 hinv2
      (fun o ho => hamt o (List.mem_cons_of_mem _ ho))

/-! ## C2: non-negative cash -/

/-- C2 (amended): for every sequence of stock/crypto buy and sell calls with
non-negative quantities applied from a registered genesis state whose initial
cash is non-negative, and provided every price the oracle resolves is
non-negative, the `CASH` entry of the holdings recorded by every line of the
resulting ledger is present and never negative.  (Without the non-negative
price proviso the claim fails: a sell at a negative stored price subtracts
from cash, see the counterexample.) -/
theorem cash_non_negative (env : Env) (symbols : List String)
    (initialCash : ℚ) (initDate : String) (ops : List Op)
    (hcash : 0 ≤ initialCash)
    (hsp : ∀ d sym p, env.openPrices d sym = some p → 0 ≤ p)
    (hcp : ∀ sym d p,
      get_crypto_price_on_date (env.cryptoFiles sym) d "open" = some p → 0 ≤ p)
    (hamt : ∀ op ∈ ops, 0 ≤ op.amount) :
    ∀ e ∈ runOps env [genesisLine symbols initialCash initDate] ops,
      ∃ c, dictGet e.holdings "CASH" = some c ∧ 0 ≤ c := by
  refine (runOps_cash env hsp hcp ops [genesisLine symbols initialCash initDate]
    (by simp) ?_ hamt).2
  intro e he
  rw [List.mem_singleton.mp he]
  exact ⟨initialCash, dictGet_dictSet_self _ _ _, hcash⟩

/-- C2 witness: with no operations the genesis snapshot itself carries the
non-negative cash. -/
theorem cash_non_negative_witness :
    ∃ c, dictGet (genesisLine ["AAPL"] 100 "2025-01-01").holdings "CASH"
        = some c ∧ 0 ≤ c :=
  cash_non_negative ⟨"2025-01-01", fun _ _ => none, fun _ => [], fun _ => []⟩
    ["AAPL"] 100 "2025-01-01" [] (by norm_num)
    (fun d sym p h => by cases h)
    (fun sym d p h => by simp [get_crypto_price_on_date, cryptoLatestHourScan] at h)
    (fun op ho => by cases ho)
    (genesisLine ["AAPL"] 100 "2025-01-01") (by simp [runOps])

/-- C2 counterexample: with a negative stored crypto price (open = −40 for
BTC) and zero initial cash, the valid sequence buy 5 BTC, buy 20 ETH, sell
5 BTC (all quantities non-negative) appends a snapshot whose `CASH` is −200:
a sell at a negative price removes cash, refuting the claim as stated. -/
theorem cash_counterexample :
    ∃ e ∈ runOps
        ⟨"2025-01-01", fun _ _ => none,
          (fun s => if s = "BTC" then [(⟨"2025-01-01", 0⟩, [("open", -40)])]
            else if s = "ETH" then [(⟨"2025-01-01", 0⟩, [("open", 10)])] else []),
          fun _ => []⟩
        [genesisLine ["BTC", "ETH"] 0 "2025-01-01"]
        [Op.cBuy "BTC" 5, Op.cBuy "ETH" 20, Op.cSell "BTC" 5],
      ∃ c, dictGet e.holdings "CASH" = some c ∧ c < 0 := by
  have e1 : (stepOp
      ⟨"2025-01-01", fun _ _ => none,
        (fun s => if s = "BTC" then [(⟨"2025-01-01", 0⟩, [("open", -40)])]
          else if s = "ETH" then [(⟨"2025-01-01", 0⟩, [("open", 10)])] else []),
        fun _ => []⟩
      [genesisLine ["BTC", "ETH"] 0 "2025-01-01"] (Op.cBuy "BTC" 5)).2
    = [genesisLine ["BTC", "ETH"] 0 "2025-01-01",
       LedgerLine.pos "2025-01-01" 1 (some ⟨"buy_crypto", "BTC", 5⟩)
         [("BTC", 5), ("ETH", 0), ("CASH", 200)]] := by
    simp only [stepOp, cryptoBuy, SUPPORTED_CRYPTOS, get_crypto_price_on_date,
      cryptoLatestHourScan, latestStep, genesisLine, initPositions,
      get_latest_position, lpStep, LedgerLine.aid, LedgerLine.holdings,
      dictGet, dictSet, dictGetD, List.map, List.foldl, String.reduceEq,
      if_true, if_false, List.mem_cons, List.mem_singleton]
    norm_num
  have e2 : (stepOp
      ⟨"2025-01-01", fun _ _ => none,
        (fun s => if s = "BTC" then [(⟨"2025-01-01", 0⟩, [("open", -40)])]
          else if s = "ETH" then [(⟨"2025-01-01", 0⟩, [("open", 10)])] else []),
        fun _ => []⟩
      [genesisLine ["BTC", "ETH"] 0 "2025-01-01",
       LedgerLine.pos "2025-01-01" 1 (some ⟨"buy_crypto", "BTC", 5⟩)
         [("BTC", 5), ("ETH", 0), ("CASH", 200)]] (Op.cBuy "ETH" 20)).2
    = [genesisLine ["BTC", "ETH"] 0 "2025-01-01",
       LedgerLine.pos "2025-01-01" 1 (some ⟨"buy_crypto", "BTC", 5⟩)
         [("BTC", 5), ("ETH", 0), ("CASH", 200)],
       LedgerLine.pos "2025-01-01" 2 (some ⟨"buy_crypto", "ETH", 20⟩)
         [("BTC", 5), ("ETH", 20), ("CASH", 0)]] := by
    simp only [stepOp, cryptoBuy, SUPPORTED_CRYPTOS, get_crypto_price_on_date,
      cryptoLatestHourScan, latestStep, genesisLine, initPositions,
      get_latest_position, lpStep, LedgerLine.aid, LedgerLine.holdings,
      dictGet, dictSet, dictGetD, List.map, List.foldl, String.reduceEq,
      if_true, if_false, List.mem_cons, List.mem_singleton]
    norm_num
  have e3 : (stepOp
      ⟨"2025-01-01", fun _ _ => none,
        (fun s => if s = "BTC" then [(⟨"2025-01-01", 0⟩, [("open", -40)])]
          else if s = "ETH" then [(⟨"2025-01-01", 0⟩, [("open", 10)])] else []),
        fun _ => []⟩
      [genesisLine ["BTC", "ETH"] 0 "2025-01-01",
       LedgerLine.pos "2025-01-01" 1 (some ⟨"buy_crypto", "BTC", 5⟩)
         [("BTC", 5), ("ETH", 0), ("CASH", 200)],
       LedgerLine.pos "2025-01-01" 2 (some ⟨"buy_crypto", "ETH", 20⟩)
         [("BTC", 5), ("ETH", 20), ("CASH", 0)]] (Op.cSell "BTC" 5)).2
    = [genesisLine ["BTC", "ETH"] 0 "2025-01-01",
       LedgerLine.pos "2025-01-01" 1 (some ⟨"buy_crypto", "BTC", 5⟩)
         [("BTC", 5), ("ETH", 0), ("CASH", 200)],
       LedgerLine.pos "2025-01-01" 2 (some ⟨"buy_crypto", "ETH", 20⟩)
         [("BTC", 5), ("ETH", 20), ("CASH", 0)],
       LedgerLine.pos "2025-01-01" 3 (some ⟨"sell_crypto", "BTC", 5⟩)
         [("BTC", 0), ("ETH", 20), ("CASH", -200)]] := by
    simp only [stepOp, cryptoSell, SUPPORTED_CRYPTOS, get_crypto_price_on_date,
      cryptoLatestHourScan, latestStep, genesisLine, initPositions,
      get_latest_position, lpStep, LedgerLine.aid, LedgerLine.holdings,
      dictGet, dictSet, dictGetD, List.map, List.foldl, String.reduceEq,
      if_true, if_false, List.mem_cons, List.mem_singleton]
    norm_num
  have hrun : runOps
      ⟨"2025-01-01", fun _ _ => none,
        (fun s => if s = "BTC" then [(⟨"2025-01-01", 0⟩, [("open", -40)])]
          else if s = "ETH" then [(⟨"2025-01-01", 0⟩, [("open", 10)])] else []),
        fun _ => []⟩
      [genesisLine ["BTC", "ETH"] 0 "2025-01-01"]
      [Op.cBuy "BTC" 5, Op.cBuy "ETH" 20, Op.cSell "BTC" 5]
    = [genesisLine ["BTC", "ETH"] 0 "2025-01-01",
       LedgerLine.pos "2025-01-01" 1 (some ⟨"buy_crypto", "BTC", 5⟩)
         [("BTC", 5), ("ETH", 0), ("CASH", 200)],
       LedgerLine.pos "2025-01-01" 2 (some ⟨"buy_crypto", "ETH", 20⟩)
         [("BTC", 5), ("ETH", 20), ("CASH", 0)],
       LedgerLine.pos "2025-01-01" 3 (some ⟨"sell_crypto", "BTC", 5⟩)
         [("BTC", 0), ("ETH", 20), ("CASH", -200)]] := by
    show (stepOp _ (stepOp _ (stepOp _ _ (Op.cBuy "BTC" 5)).2 (Op.cBuy "ETH" 20)).2
      (Op.cSell "BTC" 5)).2 = _
    rw [e1, e2, e3]
  rw [hrun]
  refine ⟨LedgerLine.pos "2025-01-01" 3 (some ⟨"sell_crypto", "BTC", 5⟩)
    [("BTC", 0), ("ETH", 20), ("CASH", -200)], by simp, -200, ?_, by norm_num⟩
  simp [LedgerLine.holdings, dictGet]

/-! ## Branch shapes of the futures executors -/

theorem futuresBuy_shape (env : Env) (l : List LedgerLine) (s : String) (c : ℚ) :
    (∃ msg, futuresBuy env l s c = (.exn msg, l)) ∨
      (∃ err, futuresBuy env l s c = (.error err, l)) ∨
      (∃ price cash,
        s ∈ SUPPORTED_FUTURES ∧
          get_futures_price_on_date (env.futFiles s) env.today "open" = .ok (some price) ∧
          dictGet (get_latest_position l).1 "CASH" = some cash ∧
          0 ≤ cash - price * contract_multiplier * c ∧
          futuresBuy env l s c =
            (.success
              (dictSet (dictSet (get_latest_position l).1 s
                  (dictGetD (get_latest_position l).1 s 0 + c)) "CASH"
                (cash - price * contract_multiplier * c))
              (LedgerLine.fut env.today (get_latest_position l).2 "buy_futures" s c
                price (price * contract_multiplier * c)
                (dictSet (dictSet (get_latest_position l).1 s
                    (dictGetD (get_latest_position l).1 s 0 + c)) "CASH"
                  (cash - price * contract_multiplier * c))),
              l ++ [LedgerLine.fut env.today (get_latest_position l).2 "buy_futures" s c
                price (price * contract_multiplier * c)
                (dictSet (dictSet (get_latest_position l).1 s
                    (dictGetD (get_latest_position l).1 s 0 + c)) "CASH"
                  (cash - price * contract_multiplier * c))])) := by
  by_cases hsup : s ∈ SUPPORTED_FUTURES
  · rcases hp : get_futures_price_on_date (env.futFiles s) env.today "open"
        with msg | _ | price
    · exact Or.inl ⟨msg, by simp [futuresBuy, hsup, hp]⟩
    · exact Or.inr (Or.inl ⟨⟨.priceUnavailable, s, env.today, none, none, none, none⟩,
        by simp [futuresBuy, hsup, hp]⟩)
    · rcases hc : dictGet (get_latest_position l).1 "CASH" with _ | cash
      · exact Or.inl ⟨"KeyError: CASH", by simp [futuresBuy, hsup, hp, hc]⟩
      · by_cases hlt : cash - price * contract_multiplier * c < 0
        · exact Or.inr (Or.inl ⟨⟨.insufficientCash, s, env.today,
            some (price * contract_multiplier * c),
            some (dictGetD (get_latest_position l).1 "CASH" 0), none, none⟩,
            by simp [futuresBuy, hsup, hp, hc, hlt]⟩)
        · exact Or.inr (Or.inr ⟨price, cash, hsup, rfl, rfl, not_lt.mp hlt,
            by simp [futuresBuy, hsup, hp, hc, hlt]⟩)
  · exact Or.inr (Or.inl ⟨⟨.unsupportedFutures, s, env.today, none, none, none, none⟩,
      by simp [futuresBuy, hsup]⟩)

theorem futuresSell_shape (env : Env) (l : List LedgerLine) (s : String) (c : ℚ) :
    (∃ msg, futuresSell env l s c = (.exn msg, l)) ∨
      (∃ err, futuresSell env l s c = (.error err, l)) ∨
      (∃ price cash,
        s ∈ SUPPORTED_FUTURES ∧
          get_futures_price_on_date (env.futFiles s) env.today "open" = .ok (some price) ∧
          ¬ dictGetD (get_latest_position l).1 s 0 < c ∧
          dictGet (dictSet (get_latest_position l).1 s
              (dictGetD (get_latest_position l).1 s 0 - c)) "CASH" = some cash ∧
          futuresSell env l s c =
            (.success
              (dictSet (dictSet (get_latest_position l).1 s
                  (dictGetD (get_latest_position l).1 s 0 - c)) "CASH"
                (cash + price * contract_multiplier * c))
              (LedgerLine.fut env.today (get_latest_position l).2 "sell_futures" s c
                price (price * contract_multiplier * c)
                (dictSet (dictSet (get_latest_position l).1 s
                    (dictGetD (get_latest_position l).1 s 0 - c)) "CASH"
                  (cash + price * contract_multiplier * c))),
              l ++ [LedgerLine.fut env.today (get_latest_position l).2 "sell_futures" s c
                price (price * contract_multiplier * c)
                (dictSet (dictSet (get_latest_position l).1 s
                    (dictGetD (get_latest_position l).1 s 0 - c)) "CASH"
                  (cash + price * contract_multiplier * c))])) := by
  by_cases hsup : s ∈ SUPPORTED_FUTURES
  · rcases hp : get_futures_price_on_date (env.futFiles s) env.today "open"
        with msg | _ | price
    · exact Or.inl ⟨msg, by simp [futuresSell, hsup, hp]⟩
    · exact Or.inr (Or.inl ⟨⟨.priceUnavailable, s, env.today, none, none, none, none⟩,
        by simp [futuresSell, hsup, hp]⟩)
    · by_cases hlt : dictGetD (get_latest_position l).1 s 0 < c
      · exact Or.inr (Or.inl ⟨⟨.insufficientShares, s, env.today, none, none,
          some (dictGetD (get_latest_position l).1 s 0), some c⟩,
          by simp [futuresSell, hsup, hp, hlt]⟩)
      · rcases hc : dictGet (dictSet (get_latest_position l).1 s
            (dictGetD (get_latest_position l).1 s 0 - c)) "CASH" with _ | cash
        · exact Or.inl ⟨"KeyError: CASH", by simp [futuresSell, hsup, hp, hlt, hc]⟩
        · exact Or.inr (Or.inr ⟨price, cash, hsup, rfl, hlt, rfl,
            by simp [futuresSell, hsup, hp, hlt, hc]⟩)
  · exact Or.inr (Or.inl ⟨⟨.unsupportedFutures, s, env.today, none, none, none, none⟩,
      by simp [futuresSell, hsup]⟩)

/-! ## C1: monotonic action ids -/

theorem stepOp_ledger_shape (env : Env) (l : List LedgerLine) (op : Op) :
    (stepOp env l op).2 = l ∨
      ∃ np thisAct, (stepOp env l op).2
        = l ++ [LedgerLine.pos env.today ((get_latest_position l).2 + 1) thisAct np] := by
  cases op with
  | sBuy s a =>
    rcases stockBuy_shape env l s a with ⟨msg, he⟩ | ⟨err, he⟩ |
        ⟨price, cash, held, -, -, -, -, he⟩
    · exact Or.inl (by rw [show stepOp env l (Op.sBuy s a) = stockBuy env l s a from rfl, he])
    · exact Or.inl (by rw [show stepOp env l (Op.sBuy s a) = stockBuy env l s a from rfl, he])
    · exact Or.inr ⟨_, _,
        by rw [show stepOp env l (Op.sBuy s a) = stockBuy env l s a from rfl, he]⟩
  | sSell s a =>
    rcases stockSell_shape env l s a with ⟨err, he⟩ | ⟨price, held, -, -, -, he⟩
    · exact Or.inl (by rw [show stepOp env l (Op.sSell s a) = stockSell env l s a from rfl, he])
    · exact Or.inr ⟨_, _,
        by rw [show stepOp env l (Op.sSell s a) = stockSell env l s a from rfl, he]⟩
  | cBuy s a =>
    rcases cryptoBuy_shape env l s a with ⟨msg, he⟩ | ⟨err, he⟩ |
        ⟨price, cash, -, -, -, -, he⟩
    · exact Or.inl (by rw [show stepOp env l (Op.cBuy s a) = cryptoBuy env l s a from rfl, he])
    · exact Or.inl (by rw [show stepOp env l (Op.cBuy s a) = cryptoBuy env l s a from rfl, he])
    · exact Or.inr ⟨_, _,
        by rw [show stepOp env l (Op.cBuy s a) = cryptoBuy env l s a from rfl, he]⟩
  | cSell s a =>
    rcases cryptoSell_shape env l s a with ⟨msg, he⟩ | ⟨err, he⟩ |
        ⟨price, held, -, -, -, -, he⟩
    · exact Or.inl (by rw [show stepOp env l (Op.cSell s a) = cryptoSell env l s a from rfl, he])
    · exact Or.inl (by rw [show stepOp env l (Op.cSell s a) = cryptoSell env l s a from rfl, he])
    · exact Or.inr ⟨_, _,
        by rw [show stepOp env l (Op.cSell s a) = cryptoSell env l s a from rfl, he]⟩

theorem runOps_ids (env : Env) :
    ∀ (ops : List Op) (l : List LedgerLine), l ≠ [] →
      l.map LedgerLine.aid = List.range l.length →
      runOps env l ops ≠ [] ∧
        (runOps env l ops).map LedgerLine.aid = List.range (runOps env l ops).length := by
  intro ops
  induction ops with
  | nil =>
    intro l hl hids
    exact ⟨hl, hids⟩
  | cons op ops ih =>
    intro l hl hids
    have hrw : runOps env l (op :: ops) = runOps env (stepOp env l op).2 ops := by
      simp [runOps]
    rw [hrw]
    rcases stepOp_ledger_shape env l op with hsh | ⟨np, thisAct, hsh⟩
    · rw [hsh]
      exact ih l hl hids
    · rw [hsh]
      refine ih _ (by simp) ?_
      have hmax : (get_latest_position l).2 = l.length - 1 :=
        get_latest_position_of_range l hids hl
      have hlen : 0 < l.length := List.length_pos.mpr hl
      rw [List.map_append, hids, List.length_append]
      simp only [List.map_cons, List.map_nil, LedgerLine.aid, List.length_cons,
        List.length_nil]
      rw [hmax]
      have h1 : l.length - 1 + 1 = l.length := by omega
      rw [h1, ← List.range_succ]

/-- C1 (amended): every stock or crypto append (buy, sell, buy_crypto,
sell_crypto) records `id = previous maximum id + 1`, so a ledger produced
from registration by any sequence of stock/crypto trades reads back the id
sequence 0, 1, 2, … strictly increasing by 1 from the genesis entry; the
futures entry points, however, record `action_id = previous maximum id`
WITHOUT the increment (and under the different field name `action_id`), so
the claimed invariant does not extend to them. -/
theorem action_id_monotonic :
    (∀ (env : Env) (symbols : List String) (cash : ℚ) (initDate : String)
        (ops : List Op),
      (runOps env [genesisLine symbols cash initDate] ops).map LedgerLine.aid
        = List.range (runOps env [genesisLine symbols cash initDate] ops).length) ∧
      (∀ (env : Env) (l : List LedgerLine) (s : String) (c : ℚ) (np : Dict)
          (line : LedgerLine) (nl : List LedgerLine),
        (futuresBuy env l s c = (.success np line, nl) →
          line.aid = (get_latest_position l).2) ∧
          (futuresSell env l s c = (.success np line, nl) →
            line.aid = (get_latest_position l).2)) := by
  constructor
  · intro env symbols cash initDate ops
    refine (runOps_ids env ops [genesisLine symbols cash initDate] (by simp) ?_).2
    simp only [List.map_cons, List.map_nil, genesisLine, LedgerLine.aid,
      List.length_singleton]
    rfl
  · intro env l s c np line nl
    constructor
    · intro h
      rcases futuresBuy_shape env l s c with ⟨msg, he⟩ | ⟨err, he⟩ |
          ⟨price, cash, -, -, -, -, he⟩
      · rw [he] at h
        simp at h
      · rw [he] at h
        simp at h
      · rw [he] at h
        simp only [Prod.mk.injEq, TradeOutcome.success.injEq] at h
        rw [← h.1.2]
        rfl
    · intro h
      rcases futuresSell_shape env l s c with ⟨msg, he⟩ | ⟨err, he⟩ |
          ⟨price, cash, -, -, -, -, he⟩
      · rw [he] at h
        simp at h
      · rw [he] at h
        simp at h
      · rw [he] at h
        simp only [Prod.mk.injEq, TradeOutcome.success.injEq] at h
        rw [← h.1.2]
        rfl

/-- C1 witness: with no trades the registered ledger reads back the id
sequence `[0]`, which is `range 1`. -/
theorem action_id_monotonic_witness :
    (runOps ⟨"2025-01-01", fun _ _ => none, fun _ => [], fun _ => []⟩
        [genesisLine ["AAPL"] 100 "2025-01-01"] []).map LedgerLine.aid
      = List.range (runOps ⟨"2025-01-01", fun _ _ => none, fun _ => [], fun _ => []⟩
        [genesisLine ["AAPL"] 100 "2025-01-01"] []).length :=
  action_id_monotonic.1 ⟨"2025-01-01", fun _ _ => none, fun _ => [], fun _ => []⟩
    ["AAPL"] 100 "2025-01-01" []

/-- C1 counterexample: a successful futures buy from the genesis ledger
appends a record whose action id equals 0 — the previous maximum, NOT the
previous maximum plus one — so the ids read back are `[0, 0]` instead of the
claimed `[0, 1]`. -/
theorem action_id_counterexample :
    ((futuresBuy
        ⟨"2025-01-01", fun _ _ => none, fun _ => [],
          (fun s => if s = "NQ1"
            then [(FKey.dateTime "2025-01-01" 86340, [("open", 10)])] else [])⟩
        [genesisLine ["NQ1"] 10000 "2025-01-01"] "NQ1" 1).2).map LedgerLine.aid
        = [0, 0] ∧
      ([0, 0] : List ℕ) ≠ [0, 1] := by
  constructor
  · have hp : get_futures_price_on_date
        [(FKey.dateTime "2025-01-01" 86340, [("open", 10)])] "2025-01-01" "open"
        = .ok (some 10) := rfl
    simp only [futuresBuy, SUPPORTED_FUTURES, hp,
      genesisLine, initPositions, get_latest_position, lpStep, LedgerLine.aid,
      LedgerLine.holdings, dictGet, dictSet, dictGetD, contract_multiplier,
      List.map, List.foldl, String.reduceEq, if_true, if_false, List.mem_cons,
      List.mem_singleton]
    norm_num
    exact ⟨rfl, rfl⟩
  · decide

/-! ## C3: business-rule rejections are returned, not raised -/

/-- C3 (code bug, evaluated): calling the crypto trade operations with an
unsupported symbol RAISES — `load_crypto_price_data` throws `ValueError` for
a symbol outside `SUPPORTED_CRYPTOS` while the tools catch only `KeyError` —
instead of returning the `{error: ...}` dictionary that the tools' own
docstrings ("Failure: Returns {error: ...} dictionary"), their dead
symbol-not-found handler, and the spec all prescribe; the ledger is at least
left unchanged. -/
theorem crypto_unsupported_symbol_raises (env : Env) (l : List LedgerLine) (a : ℚ) :
    cryptoBuy env l "DOGE" a = (.exn "ValueError: Unsupported cryptocurrency", l) ∧
      cryptoSell env l "DOGE" a
        = (.exn "ValueError: Unsupported cryptocurrency", l) := by
  constructor
  · simp [cryptoBuy, SUPPORTED_CRYPTOS]
  · simp [cryptoSell, SUPPORTED_CRYPTOS]

/-! ## C4: buy functional correctness -/

/-- C4 (amended): for a buy with resolvable price `p` and quantity `q`, if
`CASH − p·q < 0` the operation returns the insufficient-cash dictionary
carrying the required and the available cash and appends nothing; otherwise
it appends and returns holdings with `CASH` decreased by `p·q` and the
symbol's entry increased by `q` under `id = previous max + 1` — where the
crypto buy creates the symbol's entry at 0 when absent, but the STOCK buy
does so only when the symbol already has an entry (`new_position[symbol] +=
amount` raises `KeyError` on an absent key, see the counterexample). -/
theorem buy_spec (env : Env) (l : List LedgerLine) (s : String) (a : ℚ) :
    (∀ price cash, env.openPrices env.today s = some price →
        dictGet (get_latest_position l).1 "CASH" = some cash →
        cash - price * a < 0 →
        stockBuy env l s a = (.error ⟨.insufficientCash, s, env.today,
          some (price * a), some (dictGetD (get_latest_position l).1 "CASH" 0),
          none, none⟩, l)) ∧
      (∀ price cash held, env.openPrices env.today s = some price →
        dictGet (get_latest_position l).1 "CASH" = some cash →
        ¬ cash - price * a < 0 →
        dictGet (dictSet (get_latest_position l).1 "CASH" (cash - price * a)) s
          = some held →
        stockBuy env l s a =
          (.success
            (dictSet (dictSet (get_latest_position l).1 "CASH" (cash - price * a)) s
              (held + a))
            (LedgerLine.pos env.today ((get_latest_position l).2 + 1)
              (some ⟨"buy", s, a⟩)
              (dictSet (dictSet (get_latest_position l).1 "CASH" (cash - price * a)) s
                (held + a))),
            l ++ [LedgerLine.pos env.today ((get_latest_position l).2 + 1)
              (some ⟨"buy", s, a⟩)
              (dictSet (dictSet (get_latest_position l).1 "CASH" (cash - price * a)) s
                (held + a))])) ∧
      (∀ price cash, s ∈ SUPPORTED_CRYPTOS →
        get_crypto_price_on_date (env.cryptoFiles s) env.today "open" = some price →
        dictGet (get_latest_position l).1 "CASH" = some cash →
        cash - price * a < 0 →
        cryptoBuy env l s a = (.error ⟨.insufficientCash, s, env.today,
          some (price * a), some (dictGetD (get_latest_position l).1 "CASH" 0),
          none, none⟩, l)) ∧
      (∀ price cash, s ∈ SUPPORTED_CRYPTOS →
        get_crypto_price_on_date (env.cryptoFiles s) env.today "open" = some price →
        dictGet (get_latest_position l).1 "CASH" = some cash →
        ¬ cash - price * a < 0 →
        cryptoBuy env l s a =
          (.success
            (dictSet (dictSet (get_latest_position l).1 "CASH" (cash - price * a)) s
              (dictGetD (dictSet (get_latest_position l).1 "CASH" (cash - price * a)) s 0
                + a))
            (LedgerLine.pos env.today ((get_latest_position l).2 + 1)
              (some ⟨"buy_crypto", s, a⟩)
              (dictSet (dictSet (get_latest_position l).1 "CASH" (cash - price * a)) s
                (dictGetD (dictSet (get_latest_position l).1 "CASH" (cash - price * a)) s 0
                  + a))),
            l ++ [LedgerLine.pos env.today ((get_latest_position l).2 + 1)
              (some ⟨"buy_crypto", s, a⟩)
              (dictSet (dictSet (get_latest_position l).1 "CASH" (cash - price * a)) s
                (dictGetD (dictSet (get_latest_position l).1 "CASH" (cash - price * a)) s 0
                  + a))])) := by
  refine ⟨?_, ?_, ?_, ?_⟩
  · intro price cash hp hc hlt
    simp [stockBuy, hp, hc, hlt]
  · intro price cash held hp hc hlt hh
    simp [stockBuy, hp, hc, hlt, hh]
  · intro price cash hsup hp hc hlt
    simp [cryptoBuy, hsup, hp, hc, hlt]
  · intro price cash hsup hp hc hlt
    simp [cryptoBuy, hsup, hp, hc, hlt]

/-- C4 witness (Scenario 2): buying 5 AAPL at open price 150 with CASH 10000
yields holdings `{AAPL: 5, CASH: 9250}` and appends the entry `id = 1`,
`this_action = {buy, AAPL, 5}`. -/
theorem buy_spec_witness :
    stockBuy ⟨"2025-11-10", (fun _ sym => if sym = "AAPL" then some 150 else none),
        fun _ => [], fun _ => []⟩
      [genesisLine ["AAPL"] 10000 "2025-11-01"] "AAPL" 5
      = (.success [("AAPL", 5), ("CASH", 9250)]
          (LedgerLine.pos "2025-11-10" 1 (some ⟨"buy", "AAPL", 5⟩)
            [("AAPL", 5), ("CASH", 9250)]),
        [genesisLine ["AAPL"] 10000 "2025-11-01",
          LedgerLine.pos "2025-11-10" 1 (some ⟨"buy", "AAPL", 5⟩)
            [("AAPL", 5), ("CASH", 9250)]]) := by
  have h := (buy_spec ⟨"2025-11-10",
      (fun _ sym => if sym = "AAPL" then some 150 else none),
      fun _ => [], fun _ => []⟩
    [genesisLine ["AAPL"] 10000 "2025-11-01"] "AAPL" 5).2.1 150 10000 0
    rfl rfl (by norm_num) rfl
  rw [h]
  simp only [genesisLine, initPositions, get_latest_position, lpStep,
    LedgerLine.aid, LedgerLine.holdings, dictGet, dictSet, dictGetD, List.map,
    List.foldl, String.reduceEq, if_true, if_false]
  norm_num

/-- C4 counterexample: a stock buy of a symbol that has a price but no entry
in the current holdings raises `KeyError` (`new_position[symbol] += amount`
on an absent key) instead of creating the entry at 0 and appending as the
claim requires; nothing is appended. -/
theorem buy_counterexample :
    stockBuy ⟨"2025-11-10", (fun _ sym => if sym = "MSFT" then some 300 else none),
        fun _ => [], fun _ => []⟩
      [genesisLine ["AAPL"] 10000 "2025-11-01"] "MSFT" 5
      = (.exn "KeyError: symbol", [genesisLine ["AAPL"] 10000 "2025-11-01"]) := by
  simp only [stockBuy, genesisLine, initPositions, get_latest_position, lpStep,
    LedgerLine.aid, LedgerLine.holdings, dictGet, dictSet, dictGetD, List.map,
    List.foldl, String.reduceEq, if_true, if_false]
  norm_num

/-! ## C5: sell functional correctness -/

/-- C5 (amended): for a sell with resolvable price `p` and quantity `q`, the
stock and crypto entry points follow the claimed three-way split — absent
symbol ↦ no-position error, held < q ↦ insufficient-shares error carrying the
held and requested amounts, otherwise append holdings with `CASH` increased
by `p·q` and the symbol decreased by `q` — but the futures entry point has
only a TWO-way split: an absent symbol is read as holding 0 contracts via
`.get(symbol, 0)` and rejected with the insufficient-contracts error (never a
no-position error), and its successful proceeds are `p · 20 · q`, not
`p · q`. -/
theorem sell_spec (env : Env) (l : List LedgerLine) (s : String) (a : ℚ) :
    (∀ price, env.openPrices env.today s = some price →
        dictGet (get_latest_position l).1 s = none →
        stockSell env l s a
          = (.error ⟨.noPosition, s, env.today, none, none, none, none⟩, l)) ∧
      (∀ price held, env.openPrices env.today s = some price →
        dictGet (get_latest_position l).1 s = some held → held < a →
        stockSell env l s a = (.error ⟨.insufficientShares, s, env.today, none, none,
          some (dictGetD (get_latest_position l).1 s 0), some a⟩, l)) ∧
      (∀ price held, env.openPrices env.today s = some price →
        dictGet (get_latest_position l).1 s = some held → ¬ held < a →
        stockSell env l s a =
          (.success
            (dictSet (dictSet (get_latest_position l).1 s (held - a)) "CASH"
              (dictGetD (dictSet (get_latest_position l).1 s (held - a)) "CASH" 0
                + price * a))
            (LedgerLine.pos env.today ((get_latest_position l).2 + 1)
              (some ⟨"sell", s, a⟩)
              (dictSet (dictSet (get_latest_position l).1 s (held - a)) "CASH"
                (dictGetD (dictSet (get_latest_position l).1 s (held - a)) "CASH" 0
                  + price * a))),
            l ++ [LedgerLine.pos env.today ((get_latest_position l).2 + 1)
              (some ⟨"sell", s, a⟩)
              (dictSet (dictSet (get_latest_position l).1 s (held - a)) "CASH"
                (dictGetD (dictSet (get_latest_position l).1 s (held - a)) "CASH" 0
                  + price * a))])) ∧
      (∀ price, s ∈ SUPPORTED_CRYPTOS →
        get_crypto_price_on_date (env.cryptoFiles s) env.today "open" = some price →
        dictGet (get_latest_position l).1 s = none →
        cryptoSell env l s a
          = (.error ⟨.noPosition, s, env.today, none, none, none, none⟩, l)) ∧
      (∀ price held, s ∈ SUPPORTED_CRYPTOS →
        get_crypto_price_on_date (env.cryptoFiles s) env.today "open" = some price →
        dictGet (get_latest_position l).1 s = some held → held < a →
        cryptoSell env l s a = (.error ⟨.insufficientShares, s, env.today, none, none,
          some (dictGetD (get_latest_position l).1 s 0), some a⟩, l)) ∧
      (∀ price held, s ∈ SUPPORTED_CRYPTOS →
        get_crypto_price_on_date (env.cryptoFiles s) env.today "open" = some price →
        dictGet (get_latest_position l).1 s = some held → ¬ held < a →
        cryptoSell env l s a =
          (.success
            (dictSet (dictSet (get_latest_position l).1 s (held - a)) "CASH"
              (dictGetD (dictSet (get_latest_position l).1 s (held - a)) "CASH" 0
                + price * a))
            (LedgerLine.pos env.today ((get_latest_position l).2 + 1)
              (some ⟨"sell_crypto", s, a⟩)
              (dictSet (dictSet (get_latest_position l).1 s (held - a)) "CASH"
                (dictGetD (dictSet (get_latest_position l).1 s (held - a)) "CASH" 0
                  + price * a))),
            l ++ [LedgerLine.pos env.today ((get_latest_position l).2 + 1)
              (some ⟨"sell_crypto", s, a⟩)
              (dictSet (dictSet (get_latest_position l).1 s (held - a)) "CASH"
                (dictGetD (dictSet (get_latest_position l).1 s (held - a)) "CASH" 0
                  + price * a))])) ∧
      (∀ price, s ∈ SUPPORTED_FUTURES →
        get_futures_price_on_date (env.futFiles s) env.today "open" = .ok (some price) →
        dictGetD (get_latest_position l).1 s 0 < a →
        futuresSell env l s a = (.error ⟨.insufficientShares, s, env.today, none, none,
          some (dictGetD (get_latest_position l).1 s 0), some a⟩, l)) ∧
      (∀ price cash, s ∈ SUPPORTED_FUTURES →
        get_futures_price_on_date (env.futFiles s) env.today "open" = .ok (some price) →
        ¬ dictGetD (get_latest_position l).1 s 0 < a →
        dictGet (dictSet (get_latest_position l).1 s
          (dictGetD (get_latest_position l).1 s 0 - a)) "CASH" = some cash →
        futuresSell env l s a =
          (.success
            (dictSet (dictSet (get_latest_position l).1 s
                (dictGetD (get_latest_position l).1 s 0 - a)) "CASH"
              (cash + price * contract_multiplier * a))
            (LedgerLine.fut env.today (get_latest_position l).2 "sell_futures" s a
              price (price * contract_multiplier * a)
              (dictSet (dictSet (get_latest_position l).1 s
                  (dictGetD (get_latest_position l).1 s 0 - a)) "CASH"
                (cash + price * contract_multiplier * a))),
            l ++ [LedgerLine.fut env.today (get_latest_position l).2 "sell_futures" s a
              price (price * contract_multiplier * a)
              (dictSet (dictSet (get_latest_position l).1 s
                  (dictGetD (get_latest_position l).1 s 0 - a)) "CASH"
                (cash + price * contract_multiplier * a))])) := by
  refine ⟨?_, ?_, ?_, ?_, ?_, ?_, ?_, ?_⟩
  · intro price hp hpos
    simp [stockSell, hp, hpos]
  · intro price held hp hpos hlt
    simp [stockSell, hp, hpos, hlt]
  · intro price held hp hpos hlt
    simp [stockSell, hp, hpos, hlt]
  · intro price hsup hp hpos
    simp [cryptoSell, hsup, hp, hpos]
  · intro price held hsup hp hpos hlt
    simp [cryptoSell, hsup, hp, hpos, hlt]
  · intro price held hsup hp hpos hlt
    simp [cryptoSell, hsup, hp, hpos, hlt]
  · intro price hsup hp hlt
    simp [futuresSell, hsup, hp, hlt]
  · intro price cash hsup hp hlt hc
    simp [futuresSell, hsup, hp, hlt, hc]

/-- C5 witness (Scenario 4): selling 20 AAPL while holding 10 returns the
insufficient-shares dictionary with `have = 10` and `want_to_sell = 20`,
appending nothing. -/
theorem sell_spec_witness :
    stockSell ⟨"2025-11-10", (fun _ sym => if sym = "AAPL" then some 200 else none),
        fun _ => [], fun _ => []⟩
      [LedgerLine.pos "2025-11-01" 0 none [("AAPL", 10), ("CASH", 10000)]] "AAPL" 20
      = (.error ⟨.insufficientShares, "AAPL", "2025-11-10", none, none,
          some 10, some 20⟩,
        [LedgerLine.pos "2025-11-01" 0 none [("AAPL", 10), ("CASH", 10000)]]) := by
  have h := (sell_spec ⟨"2025-11-10",
      (fun _ sym => if sym = "AAPL" then some 200 else none),
      fun _ => [], fun _ => []⟩
    [LedgerLine.pos "2025-11-01" 0 none [("AAPL", 10), ("CASH", 10000)]]
    "AAPL" 20).2.1 200 10 rfl rfl (by norm_num)
  rw [h]
  simp only [get_latest_position, lpStep, LedgerLine.holdings, dictGet, dictGetD,
    List.foldl, String.reduceEq, if_true, if_false]
  norm_num

/-- C5 counterexample: a futures sell of a symbol absent from the holdings
returns the insufficient-contracts dictionary (held 0, requested 1) — not the
no-position error the claimed three-way split requires for every sell entry
point. -/
theorem sell_counterexample :
    futuresSell ⟨"2025-01-01", fun _ _ => none, fun _ => [],
        (fun s => if s = "ES"
          then [(FKey.dateTime "2025-01-01" 86340, [("open", 100)])] else [])⟩
      [LedgerLine.pos "2025-01-01" 0 none [("CASH", 50)]] "ES" 1
      = (.error ⟨.insufficientShares, "ES", "2025-01-01", none, none,
          some 0, some 1⟩,
        [LedgerLine.pos "2025-01-01" 0 none [("CASH", 50)]]) ∧
      ErrKind.insufficientShares ≠ ErrKind.noPosition := by
  constructor
  · have hp : get_futures_price_on_date
        [(FKey.dateTime "2025-01-01" 86340, [("open", 100)])] "2025-01-01" "open"
        = .ok (some 100) := rfl
    simp only [futuresSell, SUPPORTED_FUTURES, hp, get_latest_position, lpStep,
      LedgerLine.aid, LedgerLine.holdings, dictGet, dictSet, dictGetD,
      List.foldl, String.reduceEq, if_true, if_false, List.mem_cons,
      List.mem_singleton]
    norm_num
  · decide

end AITrader
